import Mathlib

/-!
Verification of the invoice computation and line-item parsing pipeline of
`lengolf-invoice/app.py` (route `generate_invoice`, lines 174-303).

The Python code is shallowly embedded: the form payload is a list of
key/value string pairs in wire order; Flask's `request.form.to_dict(flat=False)`
is modelled by `toDictFlatFalse` (a key-grouped association list preserving
first-occurrence key order); Python `float` values are modelled as exact
rationals (`ℚ`), so `float(text)` of a decimal literal is the literal's exact
value; Python's built-in `round(x, 2)` (round-half-to-even) is `pyRound2`;
Python's stable `sorted` is Mathlib's stable `List.insertionSort`.
-/

/-- Numeric value of a run of decimal digit characters. -/
def digitsVal (ds : List Char) : Nat :=
  ds.foldl (fun n c => 10 * n + (c.toNat - 48)) 0

/-- Python `str.strip()` on a character list: drop whitespace from both ends. -/
def trimList (cs : List Char) : List Char :=
  (cs.dropWhile Char.isWhitespace).rdropWhile Char.isWhitespace

/-- Python `str.strip()` (line 232 of app.py applies it to every form value). -/
def pyStrip (s : String) : String :=
  ⟨trimList s.data⟩

/-- Python `str.split(sep)` for a single-character separator. -/
def splitOnChar (sep : Char) : List Char → List (List Char)
  | [] => [[]]
  | c :: cs =>
    if c = sep then [] :: splitOnChar sep cs
    else
      match splitOnChar sep cs with
      | [] => [[c]]
      | s :: rest => (c :: s) :: rest

/-- `listStarts p l` is Python `l.startswith(p)` on character lists. -/
def listStarts : List Char → List Char → Bool
  | [], _ => true
  | _ :: _, [] => false
  | p :: ps, c :: cs => p = c && listStarts ps cs

/-- Drop an expected literal head from a character list, or fail. -/
def dropPre : List Char → List Char → Option (List Char)
  | [], cs => some cs
  | _ :: _, [] => none
  | p :: ps, c :: cs => if p = c then dropPre ps cs else none

/-- A nonempty all-digit character list parsed to its value, else failure. -/
def natDigitsVal (l : List Char) : Option Nat :=
  if l ≠ [] ∧ l.all Char.isDigit then some (digitsVal l) else none

/-- Python `int(text)` on the inputs reachable here: surrounding whitespace
is tolerated, an optional sign precedes a nonempty digit run.
(Underscore digit separators and non-ASCII digits are outside the modelled
input space.) -/
def parsePyIntList (cs0 : List Char) : Option Int :=
  match trimList cs0 with
  | [] => none
  | c :: rest =>
    if c = '+' then (natDigitsVal rest).map (fun n => (n : Int))
    else if c = '-' then (natDigitsVal rest).map (fun n => -(n : Int))
    else (natDigitsVal (c :: rest)).map (fun n => (n : Int))

/-- Exponent part of a Python float literal: `e`/`E`, optional sign, digits.
Returns the signed exponent when the remainder is exactly an exponent. -/
def parseExpPart (cs : List Char) : Option Int :=
  match cs with
  | [] => some 0
  | e :: rest =>
    if e = 'e' ∨ e = 'E' then
      match rest with
      | [] => none
      | c :: rest2 =>
        if c = '+' then (natDigitsVal rest2).map (fun n => (n : Int))
        else if c = '-' then (natDigitsVal rest2).map (fun n => -(n : Int))
        else (natDigitsVal (c :: rest2)).map (fun n => (n : Int))
    else none

/-- Mantissa and exponent of an unsigned Python float literal:
`digits [. digits] [exp]` or `. digits [exp]`, requiring at least one digit. -/
def parseUnsignedFloat (cs : List Char) : Option ℚ :=
  let ip := cs.takeWhile Char.isDigit
  let rest := cs.dropWhile Char.isDigit
  let fracAndRest : List Char × List Char :=
    match rest with
    | '.' :: r => (r.takeWhile Char.isDigit, r.dropWhile Char.isDigit)
    | r => ([], r)
  let fp := fracAndRest.1
  if ip = [] ∧ fp = [] then none
  else
    match parseExpPart fracAndRest.2 with
    | none => none
    | some e =>
      some (((digitsVal ip : ℚ) + (digitsVal fp : ℚ) / (10 : ℚ) ^ fp.length)
        * (10 : ℚ) ^ e)

/-- Python `float(text)` on finite decimal literals, modelled exactly as a
rational: optional surrounding whitespace and sign, then a decimal literal
with optional fraction and exponent. (`inf`/`nan`/underscored literals are
outside the modelled input space; binary floating-point representation error
is abstracted away, values are exact.) -/
def parsePyFloat (s : String) : Option ℚ :=
  match trimList s.data with
  | [] => none
  | c :: rest =>
    if c = '+' then parseUnsignedFloat rest
    else if c = '-' then (parseUnsignedFloat rest).map (fun q => -q)
    else parseUnsignedFloat (c :: rest)

/-- The sort key of line 220 of app.py:
`int(x.split('[')[1].split(']')[0])`, failing (Python `ValueError` /
`IndexError`) when the bracketed index segment is not an integer. -/
def sortKeyOf (k : String) : Option Int :=
  match (splitOnChar '[' k.data).get? 1 with
  | none => none
  | some seg => parsePyIntList ((splitOnChar ']' seg).headD [])

/-- Total version of the sort key, used only on keys already checked. -/
def keyIntOf (k : String) : Int :=
  (sortKeyOf k).getD 0

/-- The two capture alternatives of the item-key regex. -/
inductive ItemField
  | description
  | amount
deriving DecidableEq

/-- `"items["` as a character list. -/
def itemsKeyStem : List Char := ['i', 't', 'e', 'm', 's', '[']

/-- `"][description]"` minus its two leading brackets. -/
def descTail : List Char :=
  ['d', 'e', 's', 'c', 'r', 'i', 'p', 't', 'i', 'o', 'n', ']']

/-- `"][amount]"` minus its two leading brackets. -/
def amtTail : List Char := ['a', 'm', 'o', 'u', 'n', 't', ']']

/-- Line 226 of app.py:
`re.match(r'items\[(\d+)\]\[(description|amount)\]', key)`.
`re.match` anchors only at the start, so trailing characters after the
closing bracket are permitted. -/
def reMatchItem (k : String) : Option (Nat × ItemField) :=
  match dropPre itemsKeyStem k.data with
  | none => none
  | some rest =>
    let ds := rest.takeWhile Char.isDigit
    let rest2 := rest.dropWhile Char.isDigit
    if ds = [] then none
    else
      match rest2 with
      | c1 :: c2 :: rest3 =>
        if c1 = ']' ∧ c2 = '[' then
          if listStarts descTail rest3 then some (digitsVal ds, .description)
          else if listStarts amtTail rest3 then some (digitsVal ds, .amount)
          else none
        else none
      | _ => none

/-- A validated line item: dict `{'description': ..., 'amount': ...}`. -/
structure LineItem where
  description : String
  amount : ℚ
deriving DecidableEq

/-- The loop state of lines 221-223 of app.py: accumulated items and
subtotal, the in-progress item (`None` before the first matching key), and
`current_idx` (initially `-1`). -/
structure PState where
  lineItems : List LineItem
  subtotal : ℚ
  current : Option LineItem
  currentIdx : Int
deriving DecidableEq

/-- Lines 235-237 / 250-252 of app.py: append the in-progress item and add
its amount to the subtotal when its description is non-empty and its amount
is strictly positive. -/
def flushState (st : PState) : PState :=
  match st.current with
  | none => st
  | some it =>
    if it.description ≠ "" ∧ 0 < it.amount then
      { st with
        lineItems := st.lineItems ++ [it]
        subtotal := st.subtotal + it.amount }
    else st

/-- One iteration of the key loop (lines 225-247 of app.py). `v` is the
value lookup `items_data[key][0]`. -/
def stepKey (v : String → String) (st : PState) (k : String) : PState :=
  match reMatchItem k with
  | none => st
  | some (idx, field) =>
    let value := pyStrip (v k)
    let st1 :=
      if (idx : Int) ≠ st.currentIdx then
        { flushState st with current := some ⟨"", 0⟩, currentIdx := (idx : Int) }
      else st
    match st1.current with
    | none => st1
    | some it =>
      match field with
      | .description => { st1 with current := some { it with description := value } }
      | .amount =>
        { st1 with current := some { it with amount := (parsePyFloat value).getD 0 } }

/-- Append one payload pair into a grouped dict, Werkzeug `MultiDict` style:
a new key goes to the end, an existing key appends nothing but the value. -/
def insertKV (d : List (String × List String)) (k : String) (v : String) :
    List (String × List String) :=
  match d with
  | [] => [(k, [v])]
  | (k', vs) :: rest =>
    if k' = k then (k', vs ++ [v]) :: rest else (k', vs) :: insertKV rest k v

/-- Flask `request.form.to_dict(flat=False)` (line 218 of app.py): group the
ordered wire payload by key, keys in first-occurrence order, values per key
in wire order. -/
def toDictFlatFalse (payload : List (String × String)) :
    List (String × List String) :=
  payload.foldl (fun d kv => insertKV d kv.1 kv.2) []

/-- `items_data[key][0]` (line 232 of app.py); total with default `""`
because the loop only looks up keys taken from the dict itself. -/
def lookupVal (d : List (String × List String)) (k : String) : String :=
  match d.find? (fun kv => kv.1 = k) with
  | some (_, v :: _) => v
  | _ => ""

/-- Lines 218-252 of app.py: the line-item parse. `none` models the uncaught
`ValueError` raised by the sort key of line 220 when a key starts with
`items[` but its bracketed index is not an integer. -/
def parseLineItems (payload : List (String × String)) :
    Option (List LineItem × ℚ) :=
  let dict := toDictFlatFalse payload
  let filtered := (dict.map Prod.fst).filter (fun k => listStarts itemsKeyStem k.data)
  if filtered.all (fun k => (sortKeyOf k).isSome) then
    let sortedKeys := List.insertionSort (fun a b => keyIntOf a ≤ keyIntOf b) filtered
    let final := flushState (sortedKeys.foldl (stepKey (lookupVal dict)) ⟨[], 0, none, -1⟩)
    some (final.lineItems, final.subtotal)
  else none

/-- Round half to even at integer precision: the rounding of Python's
built-in `round` applied to the exact value. -/
def rhe (x : ℚ) : Int :=
  if x - ((⌊x⌋ : Int) : ℚ) < 1 / 2 then ⌊x⌋
  else if 1 / 2 < x - ((⌊x⌋ : Int) : ℚ) then ⌊x⌋ + 1
  else if ⌊x⌋ % 2 = 0 then ⌊x⌋ else ⌊x⌋ + 1

/-- Python `round(x, 2)` on the exact value: round half to even at two
decimal places. -/
def pyRound2 (x : ℚ) : ℚ :=
  (rhe (x * 100) : ℚ) / 100

/-- Gregorian leap-year rule used by `datetime.date`. -/
def isLeapYear (y : Nat) : Bool :=
  (y % 4 = 0 && !(y % 100 = 0)) || (y % 400 = 0)

/-- Days in a month, as validated by `datetime.date`. -/
def daysInMonth (y m : Nat) : Nat :=
  if m = 2 then (if isLeapYear y then 29 else 28)
  else if m = 4 ∨ m = 6 ∨ m = 9 ∨ m = 11 then 30
  else 31

/-- `datetime.strptime(s, '%Y-%m-%d').date()` (line 192 of app.py): exactly
three dash-separated fields, a four-digit year and one-or-two-digit month and
day, forming a real calendar date (year at least 1). -/
def parsePyDate (s : String) : Option (Nat × Nat × Nat) :=
  match splitOnChar '-' s.data with
  | [ys, ms, ds] =>
    if ys.length = 4 ∧ ys.all Char.isDigit ∧
        1 ≤ ms.length ∧ ms.length ≤ 2 ∧ ms.all Char.isDigit ∧
        1 ≤ ds.length ∧ ds.length ≤ 2 ∧ ds.all Char.isDigit then
      let y := digitsVal ys
      let m := digitsVal ms
      let d := digitsVal ds
      if 1 ≤ y ∧ 1 ≤ m ∧ m ≤ 12 ∧ 1 ≤ d ∧ d ≤ daysInMonth y m then
        some (y, m, d)
      else none
    else none
  | _ => none

/-- Zero-padded two-digit field of `strftime`. -/
def pad2 (n : Nat) : String :=
  if n < 10 then "0" ++ toString n else toString n

/-- `invoice_date.strftime('%d/%m/%Y')` (line 265 of app.py). -/
def formatDMY (ymd : Nat × Nat × Nat) : String :=
  pad2 ymd.2.2 ++ "/" ++ pad2 ymd.2.1 ++ "/" ++ toString ymd.1

/-- The failure modes of `generate_invoice`: the three flash-and-redirect
rejections, and the uncaught `ValueError` escaping from the sort key of
line 220 (which aborts the request with a server error). -/
inductive GenError
  | missingFields
  | invalidRateOrDate
  | uncaughtValueError
  | noValidItems
deriving DecidableEq

/-- The computed invoice record handed to the renderer (lines 263-271 of
app.py). -/
structure InvoiceData where
  invoiceNumber : String
  dateFormatted : String
  items : List LineItem
  subtotal : ℚ
  taxRate : ℚ
  taxAmount : ℚ
  total : ℚ
deriving DecidableEq

/-- The computation core of `generate_invoice` (lines 180-271 of app.py):
required-field check, rate/date validation, line-item parse, empty-invoice
rejection, and the two rounded totals. The supplier database lookup and the
HTML/PDF rendering are external collaborators and are not modelled; an
`Except.error` result models flash-and-redirect (or, for
`uncaughtValueError`, an aborted request) with no invoice record produced. -/
def generateInvoice (payload : List (String × String))
    (supplierId invoiceNumber dateStr taxStr : String) :
    Except GenError InvoiceData :=
  if supplierId = "" ∨ invoiceNumber = "" ∨ dateStr = "" ∨ taxStr = "" then
    .error .missingFields
  else
    match parsePyFloat taxStr, parsePyDate dateStr with
    | some taxRate, some d =>
      match parseLineItems payload with
      | none => .error .uncaughtValueError
      | some (items, subtotal) =>
        if items = [] then .error .noValidItems
        else
          .ok
            { invoiceNumber := invoiceNumber
              dateFormatted := formatDMY d
              items := items
              subtotal := subtotal
              taxRate := taxRate
              taxAmount := pyRound2 (subtotal * taxRate / 100)
              total := pyRound2 (subtotal - pyRound2 (subtotal * taxRate / 100)) }
    | _, _ => .error .invalidRateOrDate

/-- The character class `[a-zA-Z0-9_.-]` of the filename-cleaning regex
(lines 284-285 of app.py). -/
def isAllowedChar (c : Char) : Bool :=
  ('a' ≤ c && c ≤ 'z') || ('A' ≤ c && c ≤ 'Z') || ('0' ≤ c && c ≤ '9') ||
    c = '_' || c = '.' || c = '-'

/-- `re.sub(r'[^a-zA-Z0-9_.-]', '_', s).strip('_')` (lines 284-285). -/
def cleanSegment (s : String) : String :=
  ⟨((s.data.map (fun c => if isAllowedChar c then c else '_')).dropWhile
      (fun c => c = '_')).rdropWhile (fun c => c = '_')⟩

/-- Line 286 of app.py: the derived PDF filename. -/
def mkInvoiceFilename (supplierName invoiceNumber : String) : String :=
  "LENGOLF_" ++ cleanSegment supplierName ++ "_Inv_" ++
    cleanSegment invoiceNumber ++ ".pdf"

/-! ### Canonical form payloads

A browser form row with index text `i` serializes as the two keys
`items[i][description]` and `items[i][amount]`. `mkPayload` builds the wire
payload of a list of rows `(indexText, descriptionText, amountText)`. -/

/-- The key `items[<i>][description]`. -/
def mkDescKey (i : String) : String :=
  ⟨itemsKeyStem ++ i.data ++ ']' :: '[' :: descTail⟩

/-- The key `items[<i>][amount]`. -/
def mkAmtKey (i : String) : String :=
  ⟨itemsKeyStem ++ i.data ++ ']' :: '[' :: amtTail⟩

/-- The two payload pairs of one form row. -/
def mkRow (r : String × String × String) : List (String × String) :=
  [(mkDescKey r.1, r.2.1), (mkAmtKey r.1, r.2.2)]

/-- The wire payload of a list of form rows, in row order. -/
def mkPayload (rows : List (String × String × String)) : List (String × String) :=
  rows.flatMap mkRow

/-- An index text is well formed when it is a nonempty digit run. -/
def WfIdx (i : String) : Prop :=
  i.data ≠ [] ∧ i.data.all Char.isDigit = true

instance : DecidablePred WfIdx := fun i => by unfold WfIdx; infer_instance

/-- Numeric index denoted by an index text. -/
def idxOf (i : String) : Nat :=
  digitsVal i.data

/-- The item produced by description text `d` and amount text `a`, if valid:
description trimmed and non-empty, amount text parsed (unparsable text
counting as 0) and strictly positive. -/
def validItem (d a : String) : Option LineItem :=
  let d' := pyStrip d
  let amt := (parsePyFloat (pyStrip a)).getD 0
  if d' ≠ "" ∧ 0 < amt then some ⟨d', amt⟩ else none

/-- The item produced by a form row, if valid. -/
def rowItem (r : String × String × String) : Option LineItem :=
  validItem r.2.1 r.2.2

/-- Python's stable `sorted` of form rows by numeric index. -/
def sortRows (rows : List (String × String × String)) :
    List (String × String × String) :=
  List.insertionSort (fun a b => idxOf a.1 ≤ idxOf b.1) rows

/-- The key list of the payload of a list of rows. -/
def rowKeysList (rows : List (String × String × String)) : List String :=
  rows.flatMap (fun r => [mkDescKey r.1, mkAmtKey r.1])

/-- Map a function over all payload values, keeping keys. -/
def mapValues (f : String → String) (payload : List (String × String)) :
    List (String × String) :=
  payload.map (fun kv => (kv.1, f kv.2))

/-- Rounding to two decimals with ties going upward, as §3 and §9 of the
specification describe it ("standard half-up rounding"). Stated from the
spec's words, for comparison against the code's `pyRound2`. -/
def specRoundHalfUp2 (x : ℚ) : ℚ :=
  (⌊x * 100 + 1 / 2⌋ : ℚ) / 100

/-! ### Character-list lemmas -/

theorem dropPre_append (p cs : List Char) : dropPre p (p ++ cs) = some cs := by
  induction p with
  | nil => rfl
  | cons c p ih => simp [dropPre, ih]

theorem listStarts_append (p cs : List Char) : listStarts p (p ++ cs) = true := by
  induction p with
  | nil => rfl
  | cons c p ih => simp [listStarts, ih]

theorem dropWhile_eq_self_of_none (p : Char → Bool) (l : List Char)
    (h : ∀ c ∈ l, p c = false) : l.dropWhile p = l := by
  cases l with
  | nil => rfl
  | cons c cs => rw [List.dropWhile_cons_of_neg]; simp [h c]

theorem rdropWhile_eq_self_of_none (p : Char → Bool) (l : List Char)
    (h : ∀ c ∈ l, p c = false) : l.rdropWhile p = l := by
  unfold List.rdropWhile
  rw [dropWhile_eq_self_of_none, List.reverse_reverse]
  intro c hc
  exact h c (List.mem_reverse.mp hc)

theorem trimList_eq_self_of_none (l : List Char)
    (h : ∀ c ∈ l, c.isWhitespace = false) : trimList l = l := by
  unfold trimList
  rw [dropWhile_eq_self_of_none _ _ h, rdropWhile_eq_self_of_none _ _ h]

theorem digit_not_ws {c : Char} (h : c.isDigit = true) : c.isWhitespace = false := by
  by_contra hw
  rw [Bool.not_eq_false] at hw
  have hcases : ((c = ' ' ∨ c = '\t') ∨ c = '\r') ∨ c = '\n' := by
    simpa [Char.isWhitespace] using hw
  rcases hcases with ((rfl | rfl) | rfl) | rfl <;> revert h <;> decide

theorem trimList_digits (l : List Char) (h : l.all Char.isDigit = true) :
    trimList l = l := by
  refine trimList_eq_self_of_none l fun c hc => ?_
  exact digit_not_ws (by simpa using List.all_eq_true.mp h c hc)

theorem natDigitsVal_of_digits (l : List Char) (h1 : l ≠ [])
    (h2 : l.all Char.isDigit = true) : natDigitsVal l = some (digitsVal l) := by
  unfold natDigitsVal
  rw [if_pos ⟨h1, h2⟩]

theorem parsePyIntList_digits (l : List Char) (h1 : l ≠ [])
    (h2 : l.all Char.isDigit = true) :
    parsePyIntList l = some (digitsVal l) := by
  unfold parsePyIntList
  rw [trimList_digits l h2]
  cases l with
  | nil => exact absurd rfl h1
  | cons c cs =>
    have hc : c.isDigit = true := by
      have := List.all_eq_true.mp h2 c (by simp)
      simpa using this
    have hplus : ¬ c = '+' := by rintro rfl; simp [Char.isDigit] at hc
    have hminus : ¬ c = '-' := by rintro rfl; simp [Char.isDigit] at hc
    simp only [if_neg hplus, if_neg hminus]
    rw [natDigitsVal_of_digits _ (by simp) h2]
    rfl

theorem digit_ne_lbracket {c : Char} (h : c.isDigit = true) : c ≠ '[' := by
  intro heq; subst heq; exact absurd h (by decide)

theorem digit_ne_rbracket {c : Char} (h : c.isDigit = true) : c ≠ ']' := by
  intro heq; subst heq; exact absurd h (by decide)

theorem digit_ne_dash {c : Char} (h : c.isDigit = true) : c ≠ '-' := by
  intro heq; subst heq; exact absurd h (by decide)

/-! ### splitOnChar lemmas -/

theorem splitOnChar_ne_nil (sep : Char) (l : List Char) : splitOnChar sep l ≠ [] := by
  cases l with
  | nil => simp [splitOnChar]
  | cons c cs =>
    unfold splitOnChar
    by_cases h : c = sep
    · simp [h]
    · simp only [if_neg h]
      rcases hsplit : splitOnChar sep cs with _ | ⟨s, rest⟩ <;> simp

theorem splitOnChar_sep_cons (sep : Char) (r : List Char) :
    splitOnChar sep (sep :: r) = [] :: splitOnChar sep r := by
  conv_lhs => unfold splitOnChar
  rw [if_pos rfl]

theorem splitOnChar_nosep_append (sep : Char) (l r : List Char)
    (h : ∀ c ∈ l, c ≠ sep) :
    splitOnChar sep (l ++ r) =
      (l ++ (splitOnChar sep r).headD []) :: (splitOnChar sep r).tail := by
  induction l with
  | nil =>
    rcases hsplit : splitOnChar sep r with _ | ⟨s, rest⟩
    · exact absurd hsplit (splitOnChar_ne_nil sep r)
    · simp [hsplit]
  | cons c l ih =>
    have hc : c ≠ sep := h c (by simp)
    have ih' := ih (fun c' hc' => h c' (by simp [hc']))
    show splitOnChar sep (c :: (l ++ r)) = _
    conv_lhs => unfold splitOnChar
    rw [if_neg hc, ih']
    simp

/-! ### Anatomy of well-formed item keys -/

theorem mkDescKey_data (i : String) :
    (mkDescKey i).data = itemsKeyStem ++ (i.data ++ ']' :: '[' :: descTail) := rfl

theorem mkAmtKey_data (i : String) :
    (mkAmtKey i).data = itemsKeyStem ++ (i.data ++ ']' :: '[' :: amtTail) := rfl

theorem wfIdx_digits {i : String} (h : WfIdx i) : ∀ c ∈ i.data, c.isDigit = true :=
  fun c hc => by simpa using List.all_eq_true.mp h.2 c hc

theorem reMatchItem_descKey (i : String) (h : WfIdx i) :
    reMatchItem (mkDescKey i) = some (idxOf i, ItemField.description) := by
  have hdig := wfIdx_digits h
  unfold reMatchItem
  rw [mkDescKey_data, dropPre_append]
  have htake : (i.data ++ ']' :: '[' :: descTail).takeWhile Char.isDigit = i.data := by
    rw [List.takeWhile_append_of_pos hdig, List.takeWhile_cons_of_neg (by decide)]
    simp
  have hdrop : (i.data ++ ']' :: '[' :: descTail).dropWhile Char.isDigit =
      ']' :: '[' :: descTail := by
    rw [List.dropWhile_append_of_pos hdig, List.dropWhile_cons_of_neg (by decide)]
  simp only [htake, hdrop, if_neg h.1]
  have hstarts : listStarts descTail descTail = true := by
    simpa using listStarts_append descTail []
  simp [hstarts, idxOf]

theorem reMatchItem_amtKey (i : String) (h : WfIdx i) :
    reMatchItem (mkAmtKey i) = some (idxOf i, ItemField.amount) := by
  have hdig := wfIdx_digits h
  unfold reMatchItem
  rw [mkAmtKey_data, dropPre_append]
  have htake : (i.data ++ ']' :: '[' :: amtTail).takeWhile Char.isDigit = i.data := by
    rw [List.takeWhile_append_of_pos hdig, List.takeWhile_cons_of_neg (by decide)]
    simp
  have hdrop : (i.data ++ ']' :: '[' :: amtTail).dropWhile Char.isDigit =
      ']' :: '[' :: amtTail := by
    rw [List.dropWhile_append_of_pos hdig, List.dropWhile_cons_of_neg (by decide)]
  simp only [htake, hdrop, if_neg h.1]
  have hstart1 : listStarts descTail amtTail = false := by decide
  have hstart2 : listStarts amtTail amtTail = true := by
    simpa using listStarts_append amtTail []
  simp [hstart1, hstart2, idxOf]

/-- Shared computation of the line-220 sort key on a well-formed key. -/
theorem sortKeyOf_stem_key (i : String) (tail : List Char) (h : WfIdx i) :
    sortKeyOf ⟨itemsKeyStem ++ (i.data ++ ']' :: '[' :: tail)⟩ =
      some (idxOf i : Int) := by
  have hdig := wfIdx_digits h
  unfold sortKeyOf
  have hstem : itemsKeyStem ++ (i.data ++ ']' :: '[' :: tail) =
      ['i', 't', 'e', 'm', 's'] ++ '[' :: (i.data ++ ']' :: '[' :: tail) := by
    simp [itemsKeyStem]
  have hre : i.data ++ ']' :: '[' :: tail = (i.data ++ [']']) ++ '[' :: tail := by
    simp
  have hsplit1 : splitOnChar '[' (i.data ++ ']' :: '[' :: tail) =
      (i.data ++ [']']) :: splitOnChar '[' tail := by
    rw [hre, splitOnChar_nosep_append '[' (i.data ++ [']']) ('[' :: tail)
      (by
        intro c hc
        rcases List.mem_append.mp hc with hc | hc
        · exact digit_ne_lbracket (hdig c hc)
        · simp at hc; subst hc; decide),
      splitOnChar_sep_cons]
    simp
  have hsplit0 : splitOnChar '[' (itemsKeyStem ++ (i.data ++ ']' :: '[' :: tail)) =
      ['i', 't', 'e', 'm', 's'] :: (i.data ++ [']']) :: splitOnChar '[' tail := by
    rw [hstem, splitOnChar_nosep_append '[' ['i', 't', 'e', 'm', 's'] _
      (by decide), splitOnChar_sep_cons, hsplit1]
    simp
  show (match (splitOnChar '[' (itemsKeyStem ++ (i.data ++ ']' :: '[' :: tail))).get? 1 with
    | none => none
    | some seg => parsePyIntList ((splitOnChar ']' seg).headD [])) = _
  rw [hsplit0]
  show parsePyIntList ((splitOnChar ']' (i.data ++ [']'])).headD []) = _
  have hsplit2 : splitOnChar ']' (i.data ++ [']']) = i.data :: [[]] := by
    rw [splitOnChar_nosep_append ']' i.data [']']
      (fun c hc => digit_ne_rbracket (hdig c hc))]
    show (i.data ++ (splitOnChar ']' (']' :: [])).headD []) :: _ = _
    rw [splitOnChar_sep_cons]
    simp [splitOnChar]
  rw [hsplit2]
  show parsePyIntList i.data = _
  rw [parsePyIntList_digits i.data h.1 h.2]
  rfl

theorem sortKeyOf_descKey (i : String) (h : WfIdx i) :
    sortKeyOf (mkDescKey i) = some (idxOf i : Int) :=
  sortKeyOf_stem_key i descTail h

theorem sortKeyOf_amtKey (i : String) (h : WfIdx i) :
    sortKeyOf (mkAmtKey i) = some (idxOf i : Int) :=
  sortKeyOf_stem_key i amtTail h

theorem keyIntOf_descKey (i : String) (h : WfIdx i) :
    keyIntOf (mkDescKey i) = (idxOf i : Int) := by
  unfold keyIntOf
  rw [sortKeyOf_descKey i h]
  rfl

theorem keyIntOf_amtKey (i : String) (h : WfIdx i) :
    keyIntOf (mkAmtKey i) = (idxOf i : Int) := by
  unfold keyIntOf
  rw [sortKeyOf_amtKey i h]
  rfl

theorem listStarts_descKey (i : String) :
    listStarts itemsKeyStem (mkDescKey i).data = true := by
  rw [mkDescKey_data]; exact listStarts_append _ _

theorem listStarts_amtKey (i : String) :
    listStarts itemsKeyStem (mkAmtKey i).data = true := by
  rw [mkAmtKey_data]; exact listStarts_append _ _

/-! ### Grouped-dict lemmas -/

theorem insertKV_fresh (d : List (String × List String)) (k : String) (v : String)
    (h : k ∉ d.map Prod.fst) : insertKV d k v = d ++ [(k, [v])] := by
  induction d with
  | nil => rfl
  | cons kd rest ih =>
    rcases kd with ⟨k', vs⟩
    have hne : k' ≠ k := by
      intro heq
      exact h (by simp [heq])
    unfold insertKV
    rw [if_neg hne, ih (fun hmem => h (by simp [hmem]))]
    simp

theorem foldl_insertKV_nodup (payload : List (String × String))
    (d0 : List (String × List String))
    (hd : ∀ kv ∈ payload, kv.1 ∉ d0.map Prod.fst)
    (hnodup : (payload.map Prod.fst).Nodup) :
    payload.foldl (fun d kv => insertKV d kv.1 kv.2) d0 =
      d0 ++ payload.map (fun kv => (kv.1, [kv.2])) := by
  induction payload generalizing d0 with
  | nil => simp
  | cons kv rest ih =>
    simp only [List.foldl_cons]
    rw [insertKV_fresh d0 kv.1 kv.2 (hd kv (by simp))]
    rw [ih (d0 ++ [(kv.1, [kv.2])])]
    · simp
    · intro kv' hkv'
      simp only [List.map_append, List.mem_append] at *
      rintro (hin | hin)
      · exact hd kv' (List.mem_cons_of_mem kv hkv') hin
      · simp at hin
        rw [List.map_cons, List.nodup_cons] at hnodup
        exact hnodup.1 (hin ▸ List.mem_map_of_mem Prod.fst hkv')
    · rw [List.map_cons, List.nodup_cons] at hnodup
      exact hnodup.2

theorem toDictFlatFalse_nodup (payload : List (String × String))
    (hnodup : (payload.map Prod.fst).Nodup) :
    toDictFlatFalse payload = payload.map (fun kv => (kv.1, [kv.2])) := by
  unfold toDictFlatFalse
  rw [foldl_insertKV_nodup payload [] (by simp) hnodup]
  simp

theorem insertKV_keys (d : List (String × List String)) (k : String) (v : String) :
    ∀ x ∈ (insertKV d k v).map Prod.fst, x ∈ d.map Prod.fst ∨ x = k := by
  induction d with
  | nil => simp [insertKV]
  | cons kd rest ih =>
    rcases kd with ⟨k', vs⟩
    unfold insertKV
    by_cases heq : k' = k
    · rw [if_pos heq]
      intro x hx
      simp at hx ⊢
      tauto
    · rw [if_neg heq]
      intro x hx
      simp at hx ⊢
      rcases hx with hx | hx
      · tauto
      · rcases ih x (by simpa using hx) with h | h
        · simp at h; tauto
        · tauto

theorem toDictFlatFalse_keys (payload : List (String × String)) :
    ∀ x ∈ (toDictFlatFalse payload).map Prod.fst, x ∈ payload.map Prod.fst := by
  unfold toDictFlatFalse
  suffices hgen : ∀ (d0 : List (String × List String)) x,
      x ∈ (payload.foldl (fun d kv => insertKV d kv.1 kv.2) d0).map Prod.fst →
      x ∈ d0.map Prod.fst ∨ x ∈ payload.map Prod.fst by
    intro x hx
    rcases hgen [] x hx with h | h
    · simp at h
    · exact h
  induction payload with
  | nil => simp
  | cons kv rest ih =>
    intro d0 x hx
    simp only [List.foldl_cons] at hx
    rcases ih (insertKV d0 kv.1 kv.2) x hx with h | h
    · rcases insertKV_keys d0 kv.1 kv.2 x h with h' | h'
      · exact Or.inl h'
      · right; simp [h']
    · right; simp [h]

theorem lookupVal_map_single (payload : List (String × String))
    (hnodup : (payload.map Prod.fst).Nodup) :
    ∀ kv ∈ payload,
      lookupVal (payload.map (fun kv => (kv.1, [kv.2]))) kv.1 = kv.2 := by
  induction payload with
  | nil => simp
  | cons kv0 rest ih =>
    intro kv hkv
    rw [List.map_cons, List.nodup_cons] at hnodup
    rcases List.mem_cons.mp hkv with rfl | hkv'
    · unfold lookupVal
      simp [List.find?]
    · have hne : kv0.1 ≠ kv.1 := by
        intro heq
        exact hnodup.1 (heq ▸ List.mem_map_of_mem Prod.fst hkv')
      have := ih hnodup.2 kv hkv'
      unfold lookupVal at this ⊢
      simp only [List.map_cons, List.find?]
      rw [show (decide (kv0.1 = kv.1)) = false by simpa using hne]
      exact this

/-! ### The grouping loop on canonical rows -/

theorem stepKey_descKey (v : String → String) (st : PState) (i : String)
    (h : WfIdx i) (hne : (idxOf i : Int) ≠ st.currentIdx) :
    stepKey v st (mkDescKey i) =
      { flushState st with
        current := some ⟨pyStrip (v (mkDescKey i)), 0⟩
        currentIdx := (idxOf i : Int) } := by
  unfold stepKey
  rw [reMatchItem_descKey i h]
  simp [hne]

theorem stepKey_amtKey_same (v : String → String) (st : PState) (i : String)
    (h : WfIdx i) (it : LineItem) (heq : st.currentIdx = (idxOf i : Int))
    (hcur : st.current = some it) :
    stepKey v st (mkAmtKey i) =
      { st with
        current := some { it with amount := (parsePyFloat (pyStrip (v (mkAmtKey i)))).getD 0 } } := by
  unfold stepKey
  rw [reMatchItem_amtKey i h]
  simp [heq, hcur]

theorem rowItem_eq_ite (r : String × String × String) :
    rowItem r =
      if pyStrip r.2.1 ≠ "" ∧ 0 < (parsePyFloat (pyStrip r.2.2)).getD 0 then
        some ⟨pyStrip r.2.1, (parsePyFloat (pyStrip r.2.2)).getD 0⟩
      else none := rfl

theorem rowKeysList_cons (r : String × String × String)
    (rest : List (String × String × String)) :
    rowKeysList (r :: rest) = mkDescKey r.1 :: mkAmtKey r.1 :: rowKeysList rest := by
  simp [rowKeysList]

theorem foldl_stepKey_rows (v : String → String)
    (rows : List (String × String × String)) (st : PState)
    (hwf : ∀ r ∈ rows, WfIdx r.1)
    (hgt : ∀ r ∈ rows, st.currentIdx < (idxOf r.1 : Int))
    (hsorted : rows.Pairwise (fun a b => idxOf a.1 < idxOf b.1))
    (hv : ∀ r ∈ rows, v (mkDescKey r.1) = r.2.1 ∧ v (mkAmtKey r.1) = r.2.2) :
    (flushState ((rowKeysList rows).foldl (stepKey v) st)).lineItems =
        (flushState st).lineItems ++ rows.filterMap rowItem ∧
      (flushState ((rowKeysList rows).foldl (stepKey v) st)).subtotal =
        (flushState st).subtotal +
          ((rows.filterMap rowItem).map LineItem.amount).sum := by
  induction rows generalizing st with
  | nil => simp [rowKeysList]
  | cons r rest ih =>
    have hwf_r : WfIdx r.1 := hwf r (by simp)
    have hpair := List.pairwise_cons.mp hsorted
    have hne : (idxOf r.1 : Int) ≠ st.currentIdx := ne_of_gt (hgt r (by simp))
    have e1 : stepKey v st (mkDescKey r.1) =
        { flushState st with
          current := some ⟨pyStrip r.2.1, 0⟩
          currentIdx := (idxOf r.1 : Int) } := by
      rw [stepKey_descKey v st r.1 hwf_r hne, (hv r (by simp)).1]
    have e2 : stepKey v (stepKey v st (mkDescKey r.1)) (mkAmtKey r.1) =
        { flushState st with
          current := some ⟨pyStrip r.2.1, (parsePyFloat (pyStrip r.2.2)).getD 0⟩
          currentIdx := (idxOf r.1 : Int) } := by
      rw [e1, stepKey_amtKey_same v _ r.1 hwf_r ⟨pyStrip r.2.1, 0⟩ rfl rfl,
        (hv r (by simp)).2]
    rw [rowKeysList_cons]
    simp only [List.foldl_cons]
    rw [e2]
    have ihres := ih
      { flushState st with
        current := some ⟨pyStrip r.2.1, (parsePyFloat (pyStrip r.2.2)).getD 0⟩
        currentIdx := (idxOf r.1 : Int) }
      (fun r' hr' => hwf r' (by simp [hr']))
      (fun r' hr' => by
        show (idxOf r.1 : Int) < (idxOf r'.1 : Int)
        exact_mod_cast hpair.1 r' hr')
      hpair.2
      (fun r' hr' => hv r' (by simp [hr']))
    rcases ihres with ⟨ihitems, ihsub⟩
    rw [ihitems, ihsub]
    by_cases hval : pyStrip r.2.1 ≠ "" ∧ 0 < (parsePyFloat (pyStrip r.2.2)).getD 0
    · have hflush : flushState
          { flushState st with
            current := some ⟨pyStrip r.2.1, (parsePyFloat (pyStrip r.2.2)).getD 0⟩
            currentIdx := (idxOf r.1 : Int) } =
          { lineItems := (flushState st).lineItems ++
              [⟨pyStrip r.2.1, (parsePyFloat (pyStrip r.2.2)).getD 0⟩]
            subtotal := (flushState st).subtotal + (parsePyFloat (pyStrip r.2.2)).getD 0
            current := some ⟨pyStrip r.2.1, (parsePyFloat (pyStrip r.2.2)).getD 0⟩
            currentIdx := (idxOf r.1 : Int) } := by
        show (if _ ∧ _ then _ else _) = _
        rw [if_pos hval]
      rw [hflush, List.filterMap_cons, rowItem_eq_ite, if_pos hval]
      constructor
      · simp
      · simp only [List.map_cons, List.sum_cons]
        ring
    · have hflush : flushState
          { flushState st with
            current := some ⟨pyStrip r.2.1, (parsePyFloat (pyStrip r.2.2)).getD 0⟩
            currentIdx := (idxOf r.1 : Int) } =
          { flushState st with
            current := some ⟨pyStrip r.2.1, (parsePyFloat (pyStrip r.2.2)).getD 0⟩
            currentIdx := (idxOf r.1 : Int) } := by
        show (if _ ∧ _ then _ else _) = _
        rw [if_neg hval]
      rw [hflush, List.filterMap_cons, rowItem_eq_ite, if_neg hval]
      constructor
      · simp
      · simp

/-! ### Keys of a canonical payload -/

theorem mkPayload_keys (rows : List (String × String × String)) :
    (mkPayload rows).map Prod.fst = rowKeysList rows := by
  simp [mkPayload, rowKeysList, mkRow, List.map_flatMap]

theorem mem_rowKeysList {y : String} {rows : List (String × String × String)} :
    y ∈ rowKeysList rows ↔ ∃ r ∈ rows, y = mkDescKey r.1 ∨ y = mkAmtKey r.1 := by
  simp only [rowKeysList, List.mem_flatMap, List.mem_cons, List.mem_singleton,
    List.not_mem_nil, or_false]

theorem rowKeysList_pairwise (P : String → String → Prop)
    (rows : List (String × String × String))
    (hsame : ∀ r ∈ rows, P (mkDescKey r.1) (mkAmtKey r.1))
    (hcross : ∀ a ∈ rows, ∀ b ∈ rows, idxOf a.1 < idxOf b.1 →
      P (mkDescKey a.1) (mkDescKey b.1) ∧ P (mkDescKey a.1) (mkAmtKey b.1) ∧
        P (mkAmtKey a.1) (mkDescKey b.1) ∧ P (mkAmtKey a.1) (mkAmtKey b.1))
    (hsorted : rows.Pairwise (fun a b => idxOf a.1 < idxOf b.1)) :
    (rowKeysList rows).Pairwise P := by
  induction rows with
  | nil => simp [rowKeysList]
  | cons r rest ih =>
    have hpair := List.pairwise_cons.mp hsorted
    rw [rowKeysList_cons]
    have hmemP : ∀ y ∈ rowKeysList rest, P (mkDescKey r.1) y ∧ P (mkAmtKey r.1) y := by
      intro y hy
      rcases mem_rowKeysList.mp hy with ⟨b, hb, hki⟩
      have hlt := hpair.1 b hb
      have hc := hcross r (by simp) b (by simp [hb]) hlt
      rcases hki with rfl | rfl
      · exact ⟨hc.1, hc.2.2.1⟩
      · exact ⟨hc.2.1, hc.2.2.2⟩
    refine List.pairwise_cons.mpr ⟨?_, List.pairwise_cons.mpr ⟨?_, ?_⟩⟩
    · intro y hy
      rcases List.mem_cons.mp hy with rfl | hy'
      · exact hsame r (by simp)
      · exact (hmemP y hy').1
    · intro y hy
      exact (hmemP y hy).2
    · exact ih (fun r' hr' => hsame r' (by simp [hr']))
        (fun a ha b hb hlt => hcross a (by simp [ha]) b (by simp [hb]) hlt)
        hpair.2

theorem descKey_ne_amtKey {i j : String} (hi : WfIdx i) (hj : WfIdx j) :
    mkDescKey i ≠ mkAmtKey j := by
  intro heq
  have h1 := reMatchItem_descKey i hi
  have h2 := reMatchItem_amtKey j hj
  rw [heq] at h1
  rw [h1] at h2
  simp at h2

theorem rowKeysList_sortedLE (rows : List (String × String × String))
    (hwf : ∀ r ∈ rows, WfIdx r.1)
    (hsorted : rows.Pairwise (fun a b => idxOf a.1 < idxOf b.1)) :
    (rowKeysList rows).Pairwise (fun a b => keyIntOf a ≤ keyIntOf b) := by
  refine rowKeysList_pairwise _ rows ?_ ?_ hsorted
  · intro r hr
    rw [keyIntOf_descKey r.1 (hwf r hr), keyIntOf_amtKey r.1 (hwf r hr)]
  · intro a ha b hb hlt
    have hwa := hwf a ha
    have hwb := hwf b hb
    have hle : (idxOf a.1 : Int) ≤ (idxOf b.1 : Int) := by exact_mod_cast le_of_lt hlt
    rw [keyIntOf_descKey a.1 hwa, keyIntOf_amtKey a.1 hwa]
    constructor
    · rw [keyIntOf_descKey b.1 hwb]; exact hle
    constructor
    · rw [keyIntOf_amtKey b.1 hwb]; exact hle
    constructor
    · rw [keyIntOf_descKey b.1 hwb]; exact hle
    · rw [keyIntOf_amtKey b.1 hwb]; exact hle

theorem rowKeysList_nodup (rows : List (String × String × String))
    (hwf : ∀ r ∈ rows, WfIdx r.1)
    (hsorted : rows.Pairwise (fun a b => idxOf a.1 < idxOf b.1)) :
    (rowKeysList rows).Nodup := by
  refine rowKeysList_pairwise _ rows ?_ ?_ hsorted
  · intro r hr
    exact descKey_ne_amtKey (hwf r hr) (hwf r hr)
  · intro a ha b hb hlt
    have hwa := hwf a ha
    have hwb := hwf b hb
    have hne : (idxOf a.1 : Int) ≠ (idxOf b.1 : Int) := by exact_mod_cast ne_of_lt hlt
    refine ⟨?_, ?_, ?_, ?_⟩
    · intro heq
      exact hne (by rw [← keyIntOf_descKey a.1 hwa, heq, keyIntOf_descKey b.1 hwb])
    · exact descKey_ne_amtKey hwa hwb
    · intro heq
      exact descKey_ne_amtKey hwb hwa heq.symm
    · intro heq
      exact hne (by rw [← keyIntOf_amtKey a.1 hwa, heq, keyIntOf_amtKey b.1 hwb])

/-! ### Master lemma: parsing a canonical payload of index-sorted rows -/

theorem mem_mkPayload_desc {rows : List (String × String × String)}
    {r : String × String × String} (hr : r ∈ rows) :
    (mkDescKey r.1, r.2.1) ∈ mkPayload rows := by
  simp only [mkPayload, List.mem_flatMap]
  exact ⟨r, hr, by simp [mkRow]⟩

theorem mem_mkPayload_amt {rows : List (String × String × String)}
    {r : String × String × String} (hr : r ∈ rows) :
    (mkAmtKey r.1, r.2.2) ∈ mkPayload rows := by
  simp only [mkPayload, List.mem_flatMap]
  exact ⟨r, hr, by simp [mkRow]⟩

theorem parse_mkPayload_sorted (rows : List (String × String × String))
    (hwf : ∀ r ∈ rows, WfIdx r.1)
    (hsorted : rows.Pairwise (fun a b => idxOf a.1 < idxOf b.1)) :
    parseLineItems (mkPayload rows) =
      some (rows.filterMap rowItem,
        ((rows.filterMap rowItem).map LineItem.amount).sum) := by
  have hkeysnodup : ((mkPayload rows).map Prod.fst).Nodup := by
    rw [mkPayload_keys]
    exact rowKeysList_nodup rows hwf hsorted
  have hdict : toDictFlatFalse (mkPayload rows) =
      (mkPayload rows).map (fun kv => (kv.1, [kv.2])) :=
    toDictFlatFalse_nodup _ hkeysnodup
  have hdictkeys : (toDictFlatFalse (mkPayload rows)).map Prod.fst = rowKeysList rows := by
    rw [hdict, List.map_map]
    rw [show ((Prod.fst ∘ fun kv : String × String => (kv.1, [kv.2]))) = Prod.fst from rfl]
    exact mkPayload_keys rows
  have hstarts : ∀ k ∈ rowKeysList rows, listStarts itemsKeyStem k.data = true := by
    intro k hk
    rcases mem_rowKeysList.mp hk with ⟨r, _, rfl | rfl⟩
    · exact listStarts_descKey r.1
    · exact listStarts_amtKey r.1
  have hfilter : (rowKeysList rows).filter (fun k => listStarts itemsKeyStem k.data) =
      rowKeysList rows :=
    List.filter_eq_self.mpr hstarts
  have hguard : (rowKeysList rows).all (fun k => (sortKeyOf k).isSome) = true := by
    rw [List.all_eq_true]
    intro k hk
    rcases mem_rowKeysList.mp hk with ⟨r, hr, rfl | rfl⟩
    · simp [sortKeyOf_descKey r.1 (hwf r hr)]
    · simp [sortKeyOf_amtKey r.1 (hwf r hr)]
  have hsortkeys :
      List.insertionSort (fun a b => keyIntOf a ≤ keyIntOf b) (rowKeysList rows) =
        rowKeysList rows :=
    List.Sorted.insertionSort_eq (rowKeysList_sortedLE rows hwf hsorted)
  have hv : ∀ r ∈ rows,
      lookupVal (toDictFlatFalse (mkPayload rows)) (mkDescKey r.1) = r.2.1 ∧
        lookupVal (toDictFlatFalse (mkPayload rows)) (mkAmtKey r.1) = r.2.2 := by
    intro r hr
    rw [hdict]
    exact ⟨lookupVal_map_single _ hkeysnodup _ (mem_mkPayload_desc hr),
      lookupVal_map_single _ hkeysnodup _ (mem_mkPayload_amt hr)⟩
  have hfold := foldl_stepKey_rows (lookupVal (toDictFlatFalse (mkPayload rows)))
    rows ⟨[], 0, none, -1⟩ hwf
    (fun r _ => by
      show (-1 : Int) < (idxOf r.1 : Int)
      have : (0 : Int) ≤ (idxOf r.1 : Int) := Int.natCast_nonneg _
      omega)
    hsorted hv
  unfold parseLineItems
  simp only [hdictkeys, hfilter, hguard, if_pos, hsortkeys]
  rw [hfold.1, hfold.2]
  simp [flushState]

theorem filterMap_rowItem_vals (rows : List (String × String × String)) :
    rows.filterMap rowItem =
      (rows.map (fun r => r.2)).filterMap (fun va => validItem va.1 va.2) := by
  rw [List.filterMap_map]
  rfl

/-- Claim C1: for every canonical form payload of rows with well-formed,
strictly increasing indices, the parsed line-item sequence contains exactly
the rows whose trimmed description is non-empty and whose amount text parses
(unparsable text counting as 0) to a strictly positive value, and the
computed subtotal is the exact sum of the amounts of the included items; at
the boundary, amount text `"0"` excludes an item and `"0.01"` includes it. -/
theorem c1_parse_exact_items (rows : List (String × String × String))
    (hwf : ∀ r ∈ rows, WfIdx r.1)
    (hsorted : rows.Pairwise (fun a b => idxOf a.1 < idxOf b.1)) :
    parseLineItems (mkPayload rows) =
        some (rows.filterMap rowItem,
          ((rows.filterMap rowItem).map LineItem.amount).sum) ∧
      (∀ r ∈ rows, rowItem r =
        if pyStrip r.2.1 ≠ "" ∧ 0 < (parsePyFloat (pyStrip r.2.2)).getD 0 then
          some ⟨pyStrip r.2.1, (parsePyFloat (pyStrip r.2.2)).getD 0⟩
        else none) ∧
      validItem "x" "0" = none ∧
      validItem "x" "0.01" = some ⟨"x", 1 / 100⟩ := by
  refine ⟨parse_mkPayload_sorted rows hwf hsorted, ?_, ?_, ?_⟩
  · intro r _
    exact rowItem_eq_ite r
  · simp +decide [validItem, pyStrip, trimList, parsePyFloat, parseUnsignedFloat,
      parseExpPart, natDigitsVal, digitsVal, Char.isWhitespace, Char.isDigit,
      List.rdropWhile]
  · simp +decide [validItem, pyStrip, trimList, parsePyFloat, parseUnsignedFloat,
      parseExpPart, natDigitsVal, digitsVal, Char.isWhitespace, Char.isDigit,
      List.rdropWhile]

theorem c1_witness :
    parseLineItems (mkPayload [("0", "Rent", "500"), ("1", "A", "0"), ("2", "B", "0.01")]) =
      some ([⟨"Rent", 500⟩, ⟨"B", 1 / 100⟩], 500 + 1 / 100) := by
  have h := (c1_parse_exact_items
    [("0", "Rent", "500"), ("1", "A", "0"), ("2", "B", "0.01")]
    (by decide) (by decide)).1
  rw [h]
  simp +decide [rowItem, validItem, pyStrip, trimList, parsePyFloat, parseUnsignedFloat,
    parseExpPart, natDigitsVal, digitsVal, Char.isWhitespace, Char.isDigit,
    List.rdropWhile]

/-- Claim C9: item indices need not start at 0 or be contiguous.  For
canonical payloads of rows with well-formed, strictly increasing indices,
the parse result is determined by the row values alone: any two index
assignments with the same relative order produce identical output, each
valid row is included whatever its absolute index, and index gaps produce no
placeholder items. -/
theorem c9_indices_irrelevant
    (rows1 rows2 : List (String × String × String))
    (hwf1 : ∀ r ∈ rows1, WfIdx r.1)
    (hwf2 : ∀ r ∈ rows2, WfIdx r.1)
    (hsorted1 : rows1.Pairwise (fun a b => idxOf a.1 < idxOf b.1))
    (hsorted2 : rows2.Pairwise (fun a b => idxOf a.1 < idxOf b.1))
    (hvals : rows1.map (fun r => r.2) = rows2.map (fun r => r.2)) :
    parseLineItems (mkPayload rows1) = parseLineItems (mkPayload rows2) ∧
      parseLineItems (mkPayload rows1) =
        some ((rows1.map (fun r => r.2)).filterMap (fun va => validItem va.1 va.2),
          (((rows1.map (fun r => r.2)).filterMap
            (fun va => validItem va.1 va.2)).map LineItem.amount).sum) := by
  have h1 := parse_mkPayload_sorted rows1 hwf1 hsorted1
  have h2 := parse_mkPayload_sorted rows2 hwf2 hsorted2
  rw [filterMap_rowItem_vals] at h1 h2
  refine ⟨?_, h1⟩
  rw [h1, h2, hvals]

theorem c9_witness :
    parseLineItems (mkPayload [("3", "a", "1"), ("17", "b", "2")]) =
        parseLineItems (mkPayload [("100", "a", "1"), ("200", "b", "2")]) ∧
      parseLineItems (mkPayload [("3", "a", "1"), ("17", "b", "2")]) =
        some ([⟨"a", 1⟩, ⟨"b", 2⟩], 3) := by
  have h := c9_indices_irrelevant
    [("3", "a", "1"), ("17", "b", "2")] [("100", "a", "1"), ("200", "b", "2")]
    (by decide) (by decide) (by decide) (by decide) (by decide)
  refine ⟨h.1, ?_⟩
  rw [h.2]
  simp +decide [validItem, pyStrip, trimList, parsePyFloat, parseUnsignedFloat,
    parseExpPart, natDigitsVal, digitsVal, Char.isWhitespace, Char.isDigit,
    List.rdropWhile]
  norm_num

/-! ### Rounding lemmas -/

theorem rhe_close (x : ℚ) : |(rhe x : ℚ) - x| ≤ 1 / 2 := by
  have h0 : ((⌊x⌋ : Int) : ℚ) ≤ x := Int.floor_le x
  have h1 : x < (⌊x⌋ : Int) + 1 := Int.lt_floor_add_one x
  unfold rhe
  split_ifs with hlt hgt heven
  · rw [abs_le]; constructor <;> linarith
  · push_cast
    rw [abs_le]; constructor <;> linarith
  · rw [abs_le]; constructor <;> linarith
  · push_cast
    rw [abs_le]; constructor <;> linarith

theorem rhe_tie_even (x : ℚ) (h : x - (⌊x⌋ : Int) = 1 / 2) : (2 : Int) ∣ rhe x := by
  unfold rhe
  have h1 : ¬(x - ((⌊x⌋ : Int) : ℚ) < 1 / 2) := by rw [h]; exact lt_irrefl _
  have h2 : ¬((1 : ℚ) / 2 < x - ((⌊x⌋ : Int) : ℚ)) := by rw [h]; exact lt_irrefl _
  rw [if_neg h1, if_neg h2]
  split_ifs with heven
  · omega
  · omega

theorem pyRound2_close (x : ℚ) : |pyRound2 x - x| ≤ 1 / 200 := by
  have h := rhe_close (x * 100)
  unfold pyRound2
  have heq : (rhe (x * 100) : ℚ) / 100 - x = ((rhe (x * 100) : ℚ) - x * 100) / 100 := by
    ring
  rw [heq, abs_div]
  rw [show |(100 : ℚ)| = 100 by norm_num]
  linarith [h]

theorem rhe_intCast (m : Int) : rhe ((m : ℚ)) = m := by
  unfold rhe
  rw [Int.floor_intCast]
  norm_num

theorem pyRound2_eval (x : ℚ) (m : Int) (h : x * 100 = (m : ℚ)) :
    pyRound2 x = (m : ℚ) / 100 := by
  unfold pyRound2
  rw [h, rhe_intCast]

/-- Claim C2 counterexample: at subtotal 12.5 and tax rate 1 (both exactly
representable in binary floating point, so the rational model agrees with the
Python floats), the code's `round` gives tax 0.12 (half to even) while the
claimed half-up rounding gives 0.13. -/
theorem c2_counterexample :
    pyRound2 ((25 / 2) * 1 / 100) ≠ specRoundHalfUp2 ((25 / 2) * 1 / 100) ∧
      pyRound2 ((25 / 2) * 1 / 100) = 12 / 100 ∧
      specRoundHalfUp2 ((25 / 2) * 1 / 100) = 13 / 100 := by
  have hfloor : ⌊(25 / 2 : ℚ)⌋ = 12 := by
    rw [Int.floor_eq_iff]
    norm_num
  have h1 : pyRound2 ((25 / 2) * 1 / 100) = 12 / 100 := by
    have hx : ((25 / 2 : ℚ) * 1 / 100) * 100 = 25 / 2 := by ring
    unfold pyRound2 rhe
    rw [hx, hfloor]
    norm_num
  have h2 : specRoundHalfUp2 ((25 / 2) * 1 / 100) = 13 / 100 := by
    unfold specRoundHalfUp2
    have hx : (25 / 2 : ℚ) * 1 / 100 * 100 + 1 / 2 = 13 := by ring
    rw [hx]
    rw [show ((13 : ℚ)) = ((13 : Int) : ℚ) by norm_num, Int.floor_intCast]
  exact ⟨by rw [h1, h2]; norm_num, h1, h2⟩

/-- Claim C2 amended: `tax_amount` is `subtotal * tax_rate / 100` rounded to
two decimals by Python's `round`, which rounds half to even (banker's
rounding), not half-up: the result is `rhe (subtotal * tax_rate) / 100`,
within half a cent of the exact value, and an exact half-cent tie rounds to
the even cent value. -/
theorem c2_tax_rounding (s r : ℚ) :
    pyRound2 (s * r / 100) = (rhe (s * r) : ℚ) / 100 ∧
      |(rhe (s * r) : ℚ) - s * r| ≤ 1 / 2 ∧
      (s * r - (⌊s * r⌋ : Int) = 1 / 2 → (2 : Int) ∣ rhe (s * r)) := by
  refine ⟨?_, rhe_close (s * r), rhe_tie_even (s * r)⟩
  unfold pyRound2
  rw [show s * r / 100 * 100 = s * r by ring]

theorem c2_witness : (2 : Int) ∣ rhe ((25 / 2) * 1) := by
  refine (c2_tax_rounding (25 / 2) 1).2.2 ?_
  have hfloor : ⌊(25 / 2 : ℚ) * 1⌋ = 12 := by
    rw [Int.floor_eq_iff]
    norm_num
  rw [hfloor]
  norm_num


theorem generateInvoice_ok_inv {payload : List (String × String)}
    {sid inv dateStr taxStr : String} {data : InvoiceData}
    (h : generateInvoice payload sid inv dateStr taxStr = .ok data) :
    ∃ taxRate d items subtotal,
      parsePyFloat taxStr = some taxRate ∧ parsePyDate dateStr = some d ∧
        parseLineItems payload = some (items, subtotal) ∧ items ≠ [] ∧
        data = { invoiceNumber := inv
                 dateFormatted := formatDMY d
                 items := items
                 subtotal := subtotal
                 taxRate := taxRate
                 taxAmount := pyRound2 (subtotal * taxRate / 100)
                 total := pyRound2 (subtotal - pyRound2 (subtotal * taxRate / 100)) } := by
  unfold generateInvoice at h
  by_cases hmf : sid = "" ∨ inv = "" ∨ dateStr = "" ∨ taxStr = ""
  · rw [if_pos hmf] at h
    exact absurd h (by simp)
  rw [if_neg hmf] at h
  rcases hpf : parsePyFloat taxStr with _ | taxRate <;> rw [hpf] at h
  · rcases hpd : parsePyDate dateStr with _ | d <;> rw [hpd] at h <;> simp at h
  rcases hpd : parsePyDate dateStr with _ | d <;> rw [hpd] at h
  · simp at h
  rcases hpl : parseLineItems payload with _ | ⟨items, subtotal⟩ <;> rw [hpl] at h
  · simp at h
  have h2 : (if items = []
      then (Except.error GenError.noValidItems : Except GenError InvoiceData)
      else Except.ok
        { invoiceNumber := inv
          dateFormatted := formatDMY d
          items := items
          subtotal := subtotal
          taxRate := taxRate
          taxAmount := pyRound2 (subtotal * taxRate / 100)
          total := pyRound2 (subtotal - pyRound2 (subtotal * taxRate / 100)) }) =
      Except.ok data := h
  by_cases hni : items = []
  · rw [if_pos hni] at h2
    exact absurd h2 (by simp)
  · rw [if_neg hni] at h2
    refine ⟨taxRate, d, items, subtotal, rfl, rfl, rfl, hni, ?_⟩
    injection h2 with h3
    exact h3.symm

/-- Claim C3: whenever `generate_invoice` succeeds (which requires a
non-empty valid line-item sequence), the total is the subtotal minus the tax
amount rounded to two decimals (withholding model), so tax plus total equals
the subtotal to within half a cent; in particular subtotal 1000 at rate 3
gives tax 30 and total 970. -/
theorem c3_withholding_total (payload : List (String × String))
    (sid inv dateStr taxStr : String) (data : InvoiceData)
    (h : generateInvoice payload sid inv dateStr taxStr = .ok data) :
    data.taxAmount = pyRound2 (data.subtotal * data.taxRate / 100) ∧
      data.total = pyRound2 (data.subtotal - data.taxAmount) ∧
      |data.taxAmount + data.total - data.subtotal| ≤ 1 / 200 ∧
      data.items ≠ [] ∧
      pyRound2 ((1000 : ℚ) * 3 / 100) = 30 ∧
      pyRound2 ((1000 : ℚ) - 30) = 970 := by
  have e30 : pyRound2 ((1000 : ℚ) * 3 / 100) = 30 := by
    rw [pyRound2_eval _ 3000 (by norm_num)]
    norm_num
  have e970 : pyRound2 ((1000 : ℚ) - 30) = 970 := by
    rw [pyRound2_eval _ 97000 (by norm_num)]
    norm_num
  obtain ⟨taxRate, d, items, subtotal, _, _, _, hne, hdata⟩ := generateInvoice_ok_inv h
  subst hdata
  refine ⟨rfl, rfl, ?_, hne, e30, e970⟩
  show |pyRound2 (subtotal * taxRate / 100) +
    pyRound2 (subtotal - pyRound2 (subtotal * taxRate / 100)) - subtotal| ≤ 1 / 200
  have hrw : pyRound2 (subtotal * taxRate / 100) +
      pyRound2 (subtotal - pyRound2 (subtotal * taxRate / 100)) - subtotal =
      pyRound2 (subtotal - pyRound2 (subtotal * taxRate / 100)) -
        (subtotal - pyRound2 (subtotal * taxRate / 100)) := by
    ring
  rw [hrw]
  exact pyRound2_close _

theorem c3_witness :
    generateInvoice (mkPayload [("0", "Rent", "1000")]) "1" "INV" "2024-01-15" "3" =
        Except.ok ⟨"INV", formatDMY (2024, 1, 15), [⟨"Rent", 1000⟩], 1000, 3, 30, 970⟩ ∧
      |(30 : ℚ) + 970 - 1000| ≤ 1 / 200 := by
  have e30 : pyRound2 ((1000 : ℚ) * 3 / 100) = 30 := by
    rw [pyRound2_eval _ 3000 (by norm_num)]
    norm_num
  have e970 : pyRound2 ((1000 : ℚ) - 30) = 970 := by
    rw [pyRound2_eval _ 97000 (by norm_num)]
    norm_num
  have h : generateInvoice (mkPayload [("0", "Rent", "1000")]) "1" "INV" "2024-01-15" "3" =
      Except.ok ⟨"INV", formatDMY (2024, 1, 15), [⟨"Rent", 1000⟩], 1000, 3, 30, 970⟩ := by
    simp +decide [generateInvoice, parsePyDate, isLeapYear, daysInMonth,
      parseLineItems, mkPayload, mkRow, mkDescKey, mkAmtKey,
      toDictFlatFalse, insertKV, lookupVal, stepKey, flushState,
      reMatchItem, dropPre, listStarts, itemsKeyStem, descTail, amtTail, sortKeyOf, keyIntOf,
      parsePyIntList, natDigitsVal, digitsVal, splitOnChar, trimList, pyStrip, parsePyFloat,
      parseUnsignedFloat, parseExpPart, Char.isWhitespace, Char.isDigit,
      List.insertionSort, List.orderedInsert, List.rdropWhile, List.find?, String.ext_iff,
      e30, e970]
  exact ⟨h, (c3_withholding_total _ _ _ _ _ _ h).2.2.1⟩

theorem parseLineItems_guard_true (rows : List (String × String × String))
    (hwf : ∀ r ∈ rows, WfIdx r.1) :
    (((toDictFlatFalse (mkPayload rows)).map Prod.fst).filter
        (fun k => listStarts itemsKeyStem k.data)).all
      (fun k => (sortKeyOf k).isSome) = true := by
  rw [List.all_eq_true]
  intro k hk
  have hk1 : k ∈ (toDictFlatFalse (mkPayload rows)).map Prod.fst :=
    (List.mem_filter.mp hk).1
  have hk2 : k ∈ (mkPayload rows).map Prod.fst :=
    toDictFlatFalse_keys (mkPayload rows) k hk1
  rw [mkPayload_keys] at hk2
  rcases mem_rowKeysList.mp hk2 with ⟨r, hr, rfl | rfl⟩
  · simp [sortKeyOf_descKey r.1 (hwf r hr)]
  · simp [sortKeyOf_amtKey r.1 (hwf r hr)]

/-- Claim C6: a tax-rate text that does not parse as a decimal, a date text
that does not parse as an ISO calendar date, or an empty parsed line-item
sequence each reject the request with an error before totals are computed
(no invoice record is produced, the result is an `Except.error`), while
malformed line-item values (bad amount text, blank description) are absorbed
silently: for well-formed keys the parse always succeeds, whatever the
values. -/
theorem c6_validation_rejects (payload : List (String × String))
    (sid inv dateStr taxStr : String) :
    ((parsePyFloat taxStr = none ∨ parsePyDate dateStr = none) →
      ∃ e, generateInvoice payload sid inv dateStr taxStr = Except.error e) ∧
      (∀ items subtotal, parseLineItems payload = some (items, subtotal) →
        items = [] →
        ∃ e, generateInvoice payload sid inv dateStr taxStr = Except.error e) ∧
      (∀ rows : List (String × String × String), (∀ r ∈ rows, WfIdx r.1) →
        (parseLineItems (mkPayload rows)).isSome = true) := by
  refine ⟨?_, ?_, ?_⟩
  · intro hbad
    by_cases hmf : sid = "" ∨ inv = "" ∨ dateStr = "" ∨ taxStr = ""
    · exact ⟨.missingFields, by unfold generateInvoice; rw [if_pos hmf]⟩
    refine ⟨.invalidRateOrDate, ?_⟩
    unfold generateInvoice
    rw [if_neg hmf]
    rcases hpf : parsePyFloat taxStr with _ | t
    · rfl
    · rcases hpd : parsePyDate dateStr with _ | d
      · rfl
      · exfalso
        rcases hbad with hb | hb
        · rw [hpf] at hb; exact Option.noConfusion hb
        · rw [hpd] at hb; exact Option.noConfusion hb
  · intro items subtotal hpl hempty
    by_cases hmf : sid = "" ∨ inv = "" ∨ dateStr = "" ∨ taxStr = ""
    · exact ⟨.missingFields, by unfold generateInvoice; rw [if_pos hmf]⟩
    rcases hpf : parsePyFloat taxStr with _ | t
    · exact ⟨.invalidRateOrDate, by unfold generateInvoice; rw [if_neg hmf, hpf]⟩
    rcases hpd : parsePyDate dateStr with _ | d
    · exact ⟨.invalidRateOrDate, by
        unfold generateInvoice; rw [if_neg hmf, hpf, hpd]⟩
    refine ⟨.noValidItems, ?_⟩
    unfold generateInvoice
    rw [if_neg hmf, hpf, hpd, hpl]
    show (if items = []
        then (Except.error GenError.noValidItems : Except GenError InvoiceData)
        else _) = _
    rw [if_pos hempty]
  · intro rows hwf
    unfold parseLineItems
    simp [parseLineItems_guard_true rows hwf]

theorem c6_witness :
    (∃ e, generateInvoice [] "1" "INV" "2024-01-15" "abc" = Except.error e) ∧
      (∃ e, generateInvoice [] "1" "INV" "2024-99-99" "3" = Except.error e) ∧
      (∃ e, generateInvoice [("items[0][description]", "x")] "1" "INV" "2024-01-15" "3" =
        Except.error e) ∧
      (parseLineItems (mkPayload [("0", "", "abc")])).isSome = true := by
  refine ⟨(c6_validation_rejects [] "1" "INV" "2024-01-15" "abc").1 (Or.inl (by decide)),
    (c6_validation_rejects [] "1" "INV" "2024-99-99" "3").1 (Or.inr (by decide)),
    (c6_validation_rejects [("items[0][description]", "x")] "1" "INV" "2024-01-15" "3").2.1
      [] 0 (by decide) rfl,
    (c6_validation_rejects [] "1" "INV" "2024-01-15" "3").2.2
      [("0", "", "abc")] (by decide)⟩

/-- Claim C4 counterexample: for the identical key `items[0][amount]` sent
twice (values "100" then "200" in payload order), the parsed amount is 100,
not 200: `to_dict(flat=False)` groups both values under one key and line 232
reads element `[0]`, the first value. -/
theorem c4_counterexample :
    parseLineItems [("items[0][description]", "x"), ("items[0][amount]", "100"),
        ("items[0][amount]", "200")] = some ([⟨"x", 100⟩], 100) ∧
      parseLineItems [("items[0][description]", "x"), ("items[0][amount]", "100"),
        ("items[0][amount]", "200")] ≠ some ([⟨"x", 200⟩], 200) := by
  have h : parseLineItems [("items[0][description]", "x"), ("items[0][amount]", "100"),
      ("items[0][amount]", "200")] = some ([⟨"x", 100⟩], 100) := by
    simp +decide [parseLineItems, toDictFlatFalse, insertKV, lookupVal, stepKey, flushState,
      reMatchItem, dropPre, listStarts, itemsKeyStem, descTail, amtTail, sortKeyOf, keyIntOf,
      parsePyIntList, natDigitsVal, digitsVal, splitOnChar, trimList, pyStrip, parsePyFloat,
      parseUnsignedFloat, parseExpPart, Char.isWhitespace, Char.isDigit,
      List.insertionSort, List.orderedInsert, List.rdropWhile, List.find?, String.ext_iff]
  refine ⟨h, ?_⟩
  rw [h]
  intro hcontra
  injection hcontra with h2
  rw [Prod.ext_iff] at h2
  have h3 := h2.1
  simp only [List.cons.injEq] at h3
  have h4 := congrArg LineItem.amount h3.1
  norm_num at h4

/-- Claim C4 amended: when the same field of the same item index is sent
twice, the winner depends on the keys: for an identical duplicated key the
FIRST value in payload order wins (whatever the second value is), because
`to_dict(flat=False)` collects the values per key and the loop reads
element `[0]`; only for two distinct keys matching the same (index, field)
pair — possible because `re.match` accepts trailing characters — does the
last processed key win. -/
theorem c4_duplicate_key_first_wins (a2 : String) :
    parseLineItems [("items[0][description]", "x"), ("items[0][amount]", "100"),
        ("items[0][amount]", a2)] = some ([⟨"x", 100⟩], 100) ∧
      parseLineItems [("items[0][description]", "x"), ("items[0][amount]", "100"),
        ("items[0][amount]x", "200")] = some ([⟨"x", 200⟩], 200) := by
  constructor
  · simp +decide [parseLineItems, toDictFlatFalse, insertKV, lookupVal, stepKey, flushState,
      reMatchItem, dropPre, listStarts, itemsKeyStem, descTail, amtTail, sortKeyOf, keyIntOf,
      parsePyIntList, natDigitsVal, digitsVal, splitOnChar, trimList, pyStrip, parsePyFloat,
      parseUnsignedFloat, parseExpPart, Char.isWhitespace, Char.isDigit,
      List.insertionSort, List.orderedInsert, List.rdropWhile, List.find?, String.ext_iff]
  · simp +decide [parseLineItems, toDictFlatFalse, insertKV, lookupVal, stepKey, flushState,
      reMatchItem, dropPre, listStarts, itemsKeyStem, descTail, amtTail, sortKeyOf, keyIntOf,
      parsePyIntList, natDigitsVal, digitsVal, splitOnChar, trimList, pyStrip, parsePyFloat,
      parseUnsignedFloat, parseExpPart, Char.isWhitespace, Char.isDigit,
      List.insertionSort, List.orderedInsert, List.rdropWhile, List.find?, String.ext_iff]

/-- Claim C5 (code defect): a key such as `items[x][amount]`, whose index
portion is not a parseable integer, passes the `startswith('items[')` filter
of line 220, and the sort key `int('x')` then raises an uncaught
`ValueError`: parsing does not complete and the remaining valid keys are
lost (modelled as a `none` result).  Keys that do not start with `items[`
are indeed silently skipped. -/
theorem c5_unparseable_index_crashes :
    parseLineItems [("items[x][amount]", "100"), ("items[0][description]", "d"),
        ("items[0][amount]", "5")] = none ∧
      sortKeyOf "items[x][amount]" = none ∧
      parseLineItems [("foo[9][amount]", "bar"), ("items[0][description]", "d"),
        ("items[0][amount]", "5")] = some ([⟨"d", 5⟩], 5) := by
  refine ⟨by decide, by decide, ?_⟩
  simp +decide [parseLineItems, toDictFlatFalse, insertKV, lookupVal, stepKey, flushState,
    reMatchItem, dropPre, listStarts, itemsKeyStem, descTail, amtTail, sortKeyOf, keyIntOf,
    parsePyIntList, natDigitsVal, digitsVal, splitOnChar, trimList, pyStrip, parsePyFloat,
    parseUnsignedFloat, parseExpPart, Char.isWhitespace, Char.isDigit,
    List.insertionSort, List.orderedInsert, List.rdropWhile, List.find?, String.ext_iff]

theorem mem_cleanSegment {c : Char} (s : String) (h : c ∈ (cleanSegment s).data) :
    isAllowedChar c = true := by
  unfold cleanSegment at h
  have h1 : c ∈ (s.data.map (fun c => if isAllowedChar c then c else '_')).dropWhile
      (fun c => c = '_') := by
    obtain ⟨t, ht⟩ := List.rdropWhile_prefix
      (fun c : Char => c = '_')
      ((s.data.map (fun c => if isAllowedChar c then c else '_')).dropWhile
        (fun c => c = '_'))
    rw [← ht]
    exact List.mem_append_left t h
  have h2 : c ∈ s.data.map (fun c => if isAllowedChar c then c else '_') :=
    (List.dropWhile_suffix (fun c : Char => c = '_')).subset h1
  rcases List.mem_map.mp h2 with ⟨c0, _, hc0⟩
  by_cases hall : isAllowedChar c0 = true
  · rw [if_pos hall] at hc0
    rw [← hc0]
    exact hall
  · rw [if_neg hall] at hc0
    rw [← hc0]
    decide

/-- Claim C8 amended: the derived filename is
`LENGOLF_<s>_Inv_<n>.pdf` with each segment obtained by replacing every
character outside `[A-Za-z0-9_.-]` with `_` and trimming leading/trailing
`_`; every character of the result is in the allowed class (so the name
contains no path separator); however, supplier `"Acme & Co."` with invoice
`"2024/05"` yields `LENGOLF_Acme___Co._Inv_2024_05.pdf` — the final `.` of
`"Co."` is in the allowed class and is kept, unlike the claimed example. -/
theorem c8_filename_safe (s n : String) :
    (∀ c ∈ (mkInvoiceFilename s n).data, isAllowedChar c = true) ∧
      '/' ∉ (mkInvoiceFilename s n).data ∧
      mkInvoiceFilename "Acme & Co." "2024/05" =
        "LENGOLF_Acme___Co._Inv_2024_05.pdf" := by
  have hmem : ∀ c ∈ (mkInvoiceFilename s n).data, isAllowedChar c = true := by
    intro c hc
    unfold mkInvoiceFilename at hc
    rw [String.data_append, String.data_append, String.data_append,
      String.data_append] at hc
    simp only [List.mem_append] at hc
    rcases hc with (((hc | hc) | hc) | hc) | hc
    · exact (show ∀ x ∈ ("LENGOLF_").data, isAllowedChar x = true by decide) c hc
    · exact mem_cleanSegment s hc
    · exact (show ∀ x ∈ ("_Inv_").data, isAllowedChar x = true by decide) c hc
    · exact mem_cleanSegment n hc
    · exact (show ∀ x ∈ (".pdf").data, isAllowedChar x = true by decide) c hc
  refine ⟨hmem, ?_, by decide⟩
  intro hc
  have := hmem '/' hc
  exact absurd this (by decide)

theorem c8_witness :
    isAllowedChar 'L' = true ∧
      '/' ∉ (mkInvoiceFilename "Acme & Co." "2024/05").data :=
  ⟨(c8_filename_safe "Acme & Co." "2024/05").1 'L' (by decide),
    (c8_filename_safe "Acme & Co." "2024/05").2.1⟩

/-- Claim C8 counterexample: the claimed example filename drops the `.` of
`"Co."`, but `.` is inside the preserved class `[A-Za-z0-9_.-]`, so the code
keeps it. -/
theorem c8_counterexample :
    mkInvoiceFilename "Acme & Co." "2024/05" ≠
        "LENGOLF_Acme___Co_Inv_2024_05.pdf" ∧
      mkInvoiceFilename "Acme & Co." "2024/05" =
        "LENGOLF_Acme___Co._Inv_2024_05.pdf" := by
  constructor
  · decide
  · decide

/-! ### Whitespace-trimming invariance -/

theorem dropWhile_head_false {p : Char → Bool} {l : List Char} {c : Char}
    {rest : List Char} (h : l.dropWhile p = c :: rest) : p c = false := by
  induction l with
  | nil => exact absurd h (by simp)
  | cons a as ih =>
    rw [List.dropWhile_cons] at h
    split at h
    · exact ih h
    · rename_i hpa
      injection h with h1 _
      subst h1
      simp only [Bool.not_eq_true] at hpa
      exact hpa

theorem trimList_idem (l : List Char) : trimList (trimList l) = trimList l := by
  unfold trimList
  rcases hr : (l.dropWhile Char.isWhitespace).rdropWhile Char.isWhitespace
    with _ | ⟨c, cs⟩
  · simp
  · have hpre := List.rdropWhile_prefix Char.isWhitespace
      (l.dropWhile Char.isWhitespace)
    rw [hr] at hpre
    obtain ⟨t, ht⟩ := hpre
    have hc : Char.isWhitespace c = false :=
      dropWhile_head_false
        (show l.dropWhile Char.isWhitespace = c :: (cs ++ t) by
          rw [← List.cons_append, ht])
    rw [List.dropWhile_cons_of_neg (by simp [hc])]
    rw [← hr, List.rdropWhile_idempotent]

theorem pyStrip_idem (s : String) : pyStrip (pyStrip s) = pyStrip s :=
  congrArg String.mk (trimList_idem s.data)

theorem insertKV_mapValues (d : List (String × List String)) (k v : String) :
    insertKV (d.map (fun kd => (kd.1, kd.2.map pyStrip))) k (pyStrip v) =
      (insertKV d k v).map (fun kd => (kd.1, kd.2.map pyStrip)) := by
  induction d with
  | nil => rfl
  | cons kd rest ih =>
    rcases kd with ⟨k', vs⟩
    unfold insertKV
    by_cases heq : k' = k
    · rw [if_pos heq]
      simp only [List.map_cons]
      rw [if_pos heq]
      simp
    · rw [if_neg heq]
      simp only [List.map_cons]
      rw [if_neg heq, ih]

theorem toDict_mapValues (payload : List (String × String)) :
    toDictFlatFalse (mapValues pyStrip payload) =
      (toDictFlatFalse payload).map (fun kd => (kd.1, kd.2.map pyStrip)) := by
  unfold toDictFlatFalse mapValues
  suffices hgen : ∀ d0 : List (String × List String),
      (payload.map (fun kv => (kv.1, pyStrip kv.2))).foldl
          (fun d kv => insertKV d kv.1 kv.2) (d0.map (fun kd => (kd.1, kd.2.map pyStrip))) =
        (payload.foldl (fun d kv => insertKV d kv.1 kv.2) d0).map
          (fun kd => (kd.1, kd.2.map pyStrip)) by
    simpa using hgen []
  induction payload with
  | nil => simp
  | cons kv rest ih =>
    intro d0
    simp only [List.map_cons, List.foldl_cons]
    rw [insertKV_mapValues, ih (insertKV d0 kv.1 kv.2)]

theorem lookupVal_mapValues (d : List (String × List String)) (k : String) :
    lookupVal (d.map (fun kd => (kd.1, kd.2.map pyStrip))) k =
      pyStrip (lookupVal d k) := by
  induction d with
  | nil => rfl
  | cons kd rest ih =>
    rcases kd with ⟨k', vs⟩
    unfold lookupVal at ih ⊢
    simp only [List.map_cons, List.find?]
    by_cases heq : k' = k
    · rw [show (decide (k' = k)) = true by simpa using heq]
      rcases vs with _ | ⟨v, vrest⟩
      · rfl
      · rfl
    · rw [show (decide (k' = k)) = false by simpa using heq]
      exact ih

theorem stepKey_strip_vals (v : String → String) :
    stepKey (fun k => pyStrip (v k)) = stepKey v := by
  funext st k
  unfold stepKey
  rw [pyStrip_idem]

/-- Claim C10: every form value, amount texts included, is whitespace-trimmed
before use (line 232), so trimming all values of a payload leaves the parse
unchanged, and the amount text `" 500 "` behaves exactly like `"500"`,
parsing to 500 and keeping the item. -/
theorem c10_amount_trimmed (payload : List (String × String)) :
    parseLineItems (mapValues pyStrip payload) = parseLineItems payload ∧
      parseLineItems [("items[0][description]", "thing"), ("items[0][amount]", " 500 ")] =
        parseLineItems [("items[0][description]", "thing"), ("items[0][amount]", "500")] ∧
      parseLineItems [("items[0][description]", "thing"), ("items[0][amount]", " 500 ")] =
        some ([⟨"thing", 500⟩], 500) := by
  refine ⟨?_, ?_, ?_⟩
  · unfold parseLineItems
    rw [toDict_mapValues]
    have hkeys : ((toDictFlatFalse payload).map
        (fun kd => (kd.1, kd.2.map pyStrip))).map Prod.fst =
        (toDictFlatFalse payload).map Prod.fst := by
      rw [List.map_map]
      rfl
    have hv : lookupVal ((toDictFlatFalse payload).map
        (fun kd => (kd.1, kd.2.map pyStrip))) =
        fun k => pyStrip (lookupVal (toDictFlatFalse payload) k) :=
      funext (lookupVal_mapValues (toDictFlatFalse payload))
    simp only [hkeys, hv, stepKey_strip_vals]
  · simp +decide [parseLineItems, toDictFlatFalse, insertKV, lookupVal, stepKey, flushState,
      reMatchItem, dropPre, listStarts, itemsKeyStem, descTail, amtTail, sortKeyOf, keyIntOf,
      parsePyIntList, natDigitsVal, digitsVal, splitOnChar, trimList, pyStrip, parsePyFloat,
      parseUnsignedFloat, parseExpPart, Char.isWhitespace, Char.isDigit,
      List.insertionSort, List.orderedInsert, List.rdropWhile, List.find?, String.ext_iff]
  · simp +decide [parseLineItems, toDictFlatFalse, insertKV, lookupVal, stepKey, flushState,
      reMatchItem, dropPre, listStarts, itemsKeyStem, descTail, amtTail, sortKeyOf, keyIntOf,
      parsePyIntList, natDigitsVal, digitsVal, splitOnChar, trimList, pyStrip, parsePyFloat,
      parseUnsignedFloat, parseExpPart, Char.isWhitespace, Char.isDigit,
      List.insertionSort, List.orderedInsert, List.rdropWhile, List.find?, String.ext_iff]

/-- Claim C7 counterexample: parsing is not a pure function of the payload's
key multiset.  The distinct keys `items[0][amount]` and `items[0][amount]x`
both match the regex as index 0, field `amount` (the regex accepts trailing
characters), so swapping them — the payloads are permutations of each other —
changes which value wins, giving amounts 200 and 100 respectively. -/
theorem c7_counterexample :
    List.Perm
        [("items[0][description]", "x"), ("items[0][amount]", "100"),
          ("items[0][amount]x", "200")]
        [("items[0][description]", "x"), ("items[0][amount]x", "200"),
          ("items[0][amount]", "100")] ∧
      parseLineItems [("items[0][description]", "x"), ("items[0][amount]", "100"),
          ("items[0][amount]x", "200")] = some ([⟨"x", 200⟩], 200) ∧
      parseLineItems [("items[0][description]", "x"), ("items[0][amount]x", "200"),
          ("items[0][amount]", "100")] = some ([⟨"x", 100⟩], 100) ∧
      parseLineItems [("items[0][description]", "x"), ("items[0][amount]", "100"),
          ("items[0][amount]x", "200")] ≠
        parseLineItems [("items[0][description]", "x"), ("items[0][amount]x", "200"),
          ("items[0][amount]", "100")] := by
  have h1 : parseLineItems [("items[0][description]", "x"), ("items[0][amount]", "100"),
      ("items[0][amount]x", "200")] = some ([⟨"x", 200⟩], 200) := by
    simp +decide [parseLineItems, toDictFlatFalse, insertKV, lookupVal, stepKey, flushState,
      reMatchItem, dropPre, listStarts, itemsKeyStem, descTail, amtTail, sortKeyOf, keyIntOf,
      parsePyIntList, natDigitsVal, digitsVal, splitOnChar, trimList, pyStrip, parsePyFloat,
      parseUnsignedFloat, parseExpPart, Char.isWhitespace, Char.isDigit,
      List.insertionSort, List.orderedInsert, List.rdropWhile, List.find?, String.ext_iff]
  have h2 : parseLineItems [("items[0][description]", "x"), ("items[0][amount]x", "200"),
      ("items[0][amount]", "100")] = some ([⟨"x", 100⟩], 100) := by
    simp +decide [parseLineItems, toDictFlatFalse, insertKV, lookupVal, stepKey, flushState,
      reMatchItem, dropPre, listStarts, itemsKeyStem, descTail, amtTail, sortKeyOf, keyIntOf,
      parsePyIntList, natDigitsVal, digitsVal, splitOnChar, trimList, pyStrip, parsePyFloat,
      parseUnsignedFloat, parseExpPart, Char.isWhitespace, Char.isDigit,
      List.insertionSort, List.orderedInsert, List.rdropWhile, List.find?, String.ext_iff]
  refine ⟨List.Perm.cons _ (List.Perm.swap _ _ _), h1, h2, ?_⟩
  rw [h1, h2]
  intro hcontra
  injection hcontra with hpair
  rw [Prod.ext_iff] at hpair
  have h4 := congrArg LineItem.amount (List.head_eq_of_cons_eq hpair.1)
  norm_num at h4

theorem orderedInsert_rowKeys (row : String × String × String)
    (S : List (String × String × String))
    (hwf_row : WfIdx row.1) (hwfS : ∀ r ∈ S, WfIdx r.1) :
    List.orderedInsert (fun a b => keyIntOf a ≤ keyIntOf b) (mkDescKey row.1)
        (List.orderedInsert (fun a b => keyIntOf a ≤ keyIntOf b) (mkAmtKey row.1)
          (rowKeysList S)) =
      rowKeysList (List.orderedInsert (fun a b => idxOf a.1 ≤ idxOf b.1) row S) := by
  have hda : keyIntOf (mkDescKey row.1) ≤ keyIntOf (mkAmtKey row.1) := by
    rw [keyIntOf_descKey row.1 hwf_row, keyIntOf_amtKey row.1 hwf_row]
  induction S with
  | nil =>
    simp only [rowKeysList, List.flatMap_nil, List.orderedInsert, if_pos hda,
      List.flatMap_cons]
    rfl
  | cons s S' ih =>
    have hwf_s : WfIdx s.1 := hwfS s (by simp)
    have hwf_S' : ∀ r ∈ S', WfIdx r.1 := fun r hr => hwfS r (by simp [hr])
    have ih' := ih hwf_S'
    rw [rowKeysList_cons]
    by_cases hle : idxOf row.1 ≤ idxOf s.1
    · have hK1 : keyIntOf (mkAmtKey row.1) ≤ keyIntOf (mkDescKey s.1) := by
        rw [keyIntOf_amtKey row.1 hwf_row, keyIntOf_descKey s.1 hwf_s]
        exact_mod_cast hle
      rw [show List.orderedInsert (fun a b => keyIntOf a ≤ keyIntOf b) (mkAmtKey row.1)
          (mkDescKey s.1 :: mkAmtKey s.1 :: rowKeysList S') =
          mkAmtKey row.1 :: mkDescKey s.1 :: mkAmtKey s.1 :: rowKeysList S'
        from by rw [List.orderedInsert, if_pos hK1]]
      rw [show List.orderedInsert (fun a b => keyIntOf a ≤ keyIntOf b) (mkDescKey row.1)
          (mkAmtKey row.1 :: mkDescKey s.1 :: mkAmtKey s.1 :: rowKeysList S') =
          mkDescKey row.1 :: mkAmtKey row.1 :: mkDescKey s.1 :: mkAmtKey s.1 ::
            rowKeysList S'
        from by rw [List.orderedInsert, if_pos hda]]
      rw [show List.orderedInsert (fun a b => idxOf a.1 ≤ idxOf b.1) row (s :: S') =
          row :: s :: S' from by rw [List.orderedInsert, if_pos hle]]
      rw [rowKeysList_cons, rowKeysList_cons]
    · have hK1 : ¬ keyIntOf (mkAmtKey row.1) ≤ keyIntOf (mkDescKey s.1) := by
        rw [keyIntOf_amtKey row.1 hwf_row, keyIntOf_descKey s.1 hwf_s]
        exact_mod_cast hle
      have hK2 : ¬ keyIntOf (mkAmtKey row.1) ≤ keyIntOf (mkAmtKey s.1) := by
        rw [keyIntOf_amtKey row.1 hwf_row, keyIntOf_amtKey s.1 hwf_s]
        exact_mod_cast hle
      have hK3 : ¬ keyIntOf (mkDescKey row.1) ≤ keyIntOf (mkDescKey s.1) := by
        rw [keyIntOf_descKey row.1 hwf_row, keyIntOf_descKey s.1 hwf_s]
        exact_mod_cast hle
      have hK4 : ¬ keyIntOf (mkDescKey row.1) ≤ keyIntOf (mkAmtKey s.1) := by
        rw [keyIntOf_descKey row.1 hwf_row, keyIntOf_amtKey s.1 hwf_s]
        exact_mod_cast hle
      rw [show List.orderedInsert (fun a b => keyIntOf a ≤ keyIntOf b) (mkAmtKey row.1)
          (mkDescKey s.1 :: mkAmtKey s.1 :: rowKeysList S') =
          mkDescKey s.1 :: mkAmtKey s.1 ::
            List.orderedInsert (fun a b => keyIntOf a ≤ keyIntOf b) (mkAmtKey row.1)
              (rowKeysList S')
        from by rw [List.orderedInsert, if_neg hK1, List.orderedInsert, if_neg hK2]]
      rw [show List.orderedInsert (fun a b => keyIntOf a ≤ keyIntOf b) (mkDescKey row.1)
          (mkDescKey s.1 :: mkAmtKey s.1 ::
            List.orderedInsert (fun a b => keyIntOf a ≤ keyIntOf b) (mkAmtKey row.1)
              (rowKeysList S')) =
          mkDescKey s.1 :: mkAmtKey s.1 ::
            List.orderedInsert (fun a b => keyIntOf a ≤ keyIntOf b) (mkDescKey row.1)
              (List.orderedInsert (fun a b => keyIntOf a ≤ keyIntOf b) (mkAmtKey row.1)
                (rowKeysList S'))
        from by rw [List.orderedInsert, if_neg hK3, List.orderedInsert, if_neg hK4]]
      rw [show List.orderedInsert (fun a b => idxOf a.1 ≤ idxOf b.1) row (s :: S') =
          s :: List.orderedInsert (fun a b => idxOf a.1 ≤ idxOf b.1) row S'
        from by rw [List.orderedInsert, if_neg hle]]
      rw [rowKeysList_cons, ih']

theorem insertionSort_rowKeys (rows : List (String × String × String))
    (hwf : ∀ r ∈ rows, WfIdx r.1) :
    List.insertionSort (fun a b => keyIntOf a ≤ keyIntOf b) (rowKeysList rows) =
      rowKeysList (sortRows rows) := by
  induction rows with
  | nil => rfl
  | cons r rest ih =>
    have hwf_r : WfIdx r.1 := hwf r (by simp)
    have hwf_rest : ∀ r' ∈ rest, WfIdx r'.1 := fun r' hr' => hwf r' (by simp [hr'])
    have hwf_sorted : ∀ r' ∈ sortRows rest, WfIdx r'.1 := by
      intro r' hr'
      exact hwf_rest r' ((List.perm_insertionSort _ rest).mem_iff.mp hr')
    rw [rowKeysList_cons]
    rw [List.insertionSort, List.insertionSort, ih hwf_rest]
    rw [orderedInsert_rowKeys r (sortRows rest) hwf_r hwf_sorted]
    rfl

theorem rowKeysList_nodup_distinct (rows : List (String × String × String))
    (hwf : ∀ r ∈ rows, WfIdx r.1)
    (hdist : rows.Pairwise (fun a b => idxOf a.1 ≠ idxOf b.1)) :
    (rowKeysList rows).Nodup := by
  induction rows with
  | nil => simp [rowKeysList]
  | cons r rest ih =>
    have hpair := List.pairwise_cons.mp hdist
    have hwf_r : WfIdx r.1 := hwf r (by simp)
    rw [rowKeysList_cons]
    have hmemP : ∀ y ∈ rowKeysList rest, mkDescKey r.1 ≠ y ∧ mkAmtKey r.1 ≠ y := by
      intro y hy
      rcases mem_rowKeysList.mp hy with ⟨b, hb, rfl | rfl⟩
      · have hwf_b : WfIdx b.1 := hwf b (by simp [hb])
        have hne := hpair.1 b hb
        constructor
        · intro heq
          apply hne
          have h1 := keyIntOf_descKey r.1 hwf_r
          have h2 := keyIntOf_descKey b.1 hwf_b
          rw [heq, h2] at h1
          exact_mod_cast h1.symm
        · exact fun heq => descKey_ne_amtKey hwf_b hwf_r heq.symm
      · have hwf_b : WfIdx b.1 := hwf b (by simp [hb])
        have hne := hpair.1 b hb
        constructor
        · exact descKey_ne_amtKey hwf_r hwf_b
        · intro heq
          apply hne
          have h1 := keyIntOf_amtKey r.1 hwf_r
          have h2 := keyIntOf_amtKey b.1 hwf_b
          rw [heq, h2] at h1
          exact_mod_cast h1.symm
    refine List.pairwise_cons.mpr ⟨?_, List.pairwise_cons.mpr ⟨?_, ?_⟩⟩
    · intro y hy
      rcases List.mem_cons.mp hy with rfl | hy'
      · exact descKey_ne_amtKey hwf_r hwf_r
      · exact (hmemP y hy').1
    · intro y hy
      exact (hmemP y hy).2
    · exact ih (fun r' hr' => hwf r' (by simp [hr'])) hpair.2

theorem sortRows_sorted_strict (rows : List (String × String × String))
    (hdist : rows.Pairwise (fun a b => idxOf a.1 ≠ idxOf b.1)) :
    (sortRows rows).Pairwise (fun a b => idxOf a.1 < idxOf b.1) := by
  haveI : IsTotal (String × String × String) (fun a b => idxOf a.1 ≤ idxOf b.1) :=
    ⟨fun a b => Nat.le_total _ _⟩
  haveI : IsTrans (String × String × String) (fun a b => idxOf a.1 ≤ idxOf b.1) :=
    ⟨fun _ _ _ => Nat.le_trans⟩
  have hsorted : (sortRows rows).Pairwise (fun a b => idxOf a.1 ≤ idxOf b.1) :=
    List.sorted_insertionSort _ rows
  have hdist' : (sortRows rows).Pairwise (fun a b => idxOf a.1 ≠ idxOf b.1) := by
    refine ((List.perm_insertionSort _ rows).pairwise_iff ?_).mpr hdist
    intro a b hab
    exact hab.symm
  exact (hsorted.and hdist').imp (fun h => lt_of_le_of_ne h.1 h.2)

theorem parse_mkPayload_distinct (rows : List (String × String × String))
    (hwf : ∀ r ∈ rows, WfIdx r.1)
    (hdist : rows.Pairwise (fun a b => idxOf a.1 ≠ idxOf b.1)) :
    parseLineItems (mkPayload rows) =
      some ((sortRows rows).filterMap rowItem,
        (((sortRows rows).filterMap rowItem).map LineItem.amount).sum) := by
  have hwf_sorted : ∀ r ∈ sortRows rows, WfIdx r.1 := by
    intro r hr
    exact hwf r ((List.perm_insertionSort _ rows).mem_iff.mp hr)
  have hsorted := sortRows_sorted_strict rows hdist
  have hkeysnodup : ((mkPayload rows).map Prod.fst).Nodup := by
    rw [mkPayload_keys]
    exact rowKeysList_nodup_distinct rows hwf hdist
  have hdict : toDictFlatFalse (mkPayload rows) =
      (mkPayload rows).map (fun kv => (kv.1, [kv.2])) :=
    toDictFlatFalse_nodup _ hkeysnodup
  have hdictkeys : (toDictFlatFalse (mkPayload rows)).map Prod.fst = rowKeysList rows := by
    rw [hdict, List.map_map]
    rw [show ((Prod.fst ∘ fun kv : String × String => (kv.1, [kv.2]))) = Prod.fst from rfl]
    exact mkPayload_keys rows
  have hstarts : ∀ k ∈ rowKeysList rows, listStarts itemsKeyStem k.data = true := by
    intro k hk
    rcases mem_rowKeysList.mp hk with ⟨r, _, rfl | rfl⟩
    · exact listStarts_descKey r.1
    · exact listStarts_amtKey r.1
  have hfilter : (rowKeysList rows).filter (fun k => listStarts itemsKeyStem k.data) =
      rowKeysList rows :=
    List.filter_eq_self.mpr hstarts
  have hguard : (rowKeysList rows).all (fun k => (sortKeyOf k).isSome) = true := by
    rw [List.all_eq_true]
    intro k hk
    rcases mem_rowKeysList.mp hk with ⟨r, hr, rfl | rfl⟩
    · simp [sortKeyOf_descKey r.1 (hwf r hr)]
    · simp [sortKeyOf_amtKey r.1 (hwf r hr)]
  have hsortkeys :
      List.insertionSort (fun a b => keyIntOf a ≤ keyIntOf b) (rowKeysList rows) =
        rowKeysList (sortRows rows) :=
    insertionSort_rowKeys rows hwf
  have hv : ∀ r ∈ sortRows rows,
      lookupVal (toDictFlatFalse (mkPayload rows)) (mkDescKey r.1) = r.2.1 ∧
        lookupVal (toDictFlatFalse (mkPayload rows)) (mkAmtKey r.1) = r.2.2 := by
    intro r hr
    have hr' : r ∈ rows := (List.perm_insertionSort _ rows).mem_iff.mp hr
    rw [hdict]
    exact ⟨lookupVal_map_single _ hkeysnodup _ (mem_mkPayload_desc hr'),
      lookupVal_map_single _ hkeysnodup _ (mem_mkPayload_amt hr')⟩
  have hfold := foldl_stepKey_rows (lookupVal (toDictFlatFalse (mkPayload rows)))
    (sortRows rows) ⟨[], 0, none, -1⟩ hwf_sorted
    (fun r _ => by
      show (-1 : Int) < (idxOf r.1 : Int)
      have : (0 : Int) ≤ (idxOf r.1 : Int) := Int.natCast_nonneg _
      omega)
    hsorted hv
  unfold parseLineItems
  simp only [hdictkeys, hfilter, hguard, if_pos, hsortkeys]
  rw [hfold.1, hfold.2]
  simp [flushState]

/-- Claim C7 amended: output line items do appear in ascending numeric index
order, and for canonical payloads whose rows carry well-formed, pairwise
distinct indices — the no-aliasing condition the counterexample shows to be
necessary — parsing is a pure function of the row set: any two payload
orders of the same rows parse to the same result, namely the valid items of
the index-sorted rows.  In general parsing is deterministic in the ordered
payload, but not in its key multiset alone. -/
theorem c7_order_and_determinism (rows1 rows2 : List (String × String × String))
    (hwf1 : ∀ r ∈ rows1, WfIdx r.1)
    (hdist1 : rows1.Pairwise (fun a b => idxOf a.1 ≠ idxOf b.1))
    (hperm : rows1.Perm rows2) :
    parseLineItems (mkPayload rows1) =
        some ((sortRows rows1).filterMap rowItem,
          (((sortRows rows1).filterMap rowItem).map LineItem.amount).sum) ∧
      parseLineItems (mkPayload rows1) = parseLineItems (mkPayload rows2) ∧
      (sortRows rows1).Pairwise (fun a b => idxOf a.1 < idxOf b.1) := by
  have hwf2 : ∀ r ∈ rows2, WfIdx r.1 := fun r hr => hwf1 r (hperm.mem_iff.mpr hr)
  have hdist2 : rows2.Pairwise (fun a b => idxOf a.1 ≠ idxOf b.1) :=
    (hperm.pairwise_iff (fun hab => hab.symm)).mp hdist1
  have h1 := parse_mkPayload_distinct rows1 hwf1 hdist1
  have h2 := parse_mkPayload_distinct rows2 hwf2 hdist2
  have hsorteq : sortRows rows1 = sortRows rows2 := by
    haveI : IsAntisymm (String × String × String)
        (fun a b => idxOf a.1 < idxOf b.1) :=
      ⟨fun a b h h' => absurd h' (Nat.lt_asymm h)⟩
    exact List.eq_of_perm_of_sorted
      (((List.perm_insertionSort _ rows1).trans hperm).trans
        (List.perm_insertionSort _ rows2).symm)
      (sortRows_sorted_strict rows1 hdist1)
      (sortRows_sorted_strict rows2 hdist2)
  refine ⟨h1, ?_, sortRows_sorted_strict rows1 hdist1⟩
  rw [h1, h2, hsorteq]

theorem c7_witness :
    parseLineItems (mkPayload [("5", "b", "2"), ("1", "a", "1")]) =
        parseLineItems (mkPayload [("1", "a", "1"), ("5", "b", "2")]) ∧
      parseLineItems (mkPayload [("5", "b", "2"), ("1", "a", "1")]) =
        some ([⟨"a", 1⟩, ⟨"b", 2⟩], 1 + 2) := by
  have h := c7_order_and_determinism [("5", "b", "2"), ("1", "a", "1")]
    [("1", "a", "1"), ("5", "b", "2")] (by decide) (by decide)
    (List.Perm.swap _ _ _)
  refine ⟨h.2.1, ?_⟩
  rw [h.1]
  simp +decide [sortRows, List.insertionSort, List.orderedInsert, keyIntOf, sortKeyOf,
    idxOf, digitsVal, rowItem, validItem, pyStrip, trimList, parsePyFloat,
    parseUnsignedFloat, parseExpPart, natDigitsVal, splitOnChar, parsePyIntList,
    Char.isWhitespace, Char.isDigit, List.rdropWhile]
